import Mathlib

/-!
Shallow embedding of the tetris engine of this repository.

The repository contains two parallel implementations of the engine:
* V1: the files src/game.c, src/tetromino.c, src/input.c (German comments,
  `Game` struct, collision check `tetromino_check_collision`);
* V2: the files src/src/game.c, src/src/tetromino.c (English comments,
  `GameState` struct, validity check `game_is_valid_position`).

Both are embedded below, each in its own namespace, with the C names kept.
C `int` fields that are provably non-negative throughout the engine
(score, level, lines counters, colors stored in board cells stay in
0..8) are modelled as `ℕ` where the code only ever adds to them, and as
`ℤ` wherever the C code can produce intermediate negative values
(coordinates, rotation arithmetic, the speed computation).  Board cells
are `ℤ` (C `int`), `0` meaning empty.  The C `rand()` calls are modelled
by passing the raw random value as an explicit argument.
-/

set_option autoImplicit false

namespace Tetris

/-- A piece instance: kind, rotation index and grid anchor, as in the C
struct `Tetromino` (both versions share this layout). -/
structure Tetromino where
  type : ℤ
  rotation : ℤ
  x : ℤ
  y : ℤ
deriving DecidableEq

/-- One board row, C `int[BOARD_WIDTH]`. -/
abbrev Row := List ℤ

/-- The board, C `int[BOARD_HEIGHT][BOARD_WIDTH]`, row 0 on top. -/
abbrev Board := List Row

/-- A 4x4 occupancy mask of a piece rotation state. -/
abbrev Mask := List (List ℤ)

/-- A row of ten empty cells. -/
def emptyRow : Row := List.replicate 10 0

/-- The cleared 20x10 board. -/
def emptyBoard : Board := List.replicate 20 emptyRow

/-- Mask lookup `shape[row][col]` (0 when out of the 4x4 range, which the
code never does). -/
def maskCell (m : Mask) (r c : ℕ) : ℤ := (m.getD r []).getD c 0

/-- Board lookup `board[y][x]`; the C code only reads it after it has
established `0 ≤ y < 20` and `0 ≤ x < 10`. -/
def boardCell (b : Board) (y x : ℤ) : ℤ := (b.getD y.toNat []).getD x.toNat 0

/-- Writes `board[y][x] = v` for in-range indices. -/
def setCell (b : Board) (y x : ℕ) (v : ℤ) : Board := b.set y ((b.getD y []).set x v)

/-- Full-row test of both `game_clear_lines` loops: every one of the ten
cells of the row is non-zero. -/
def rowFull (r : Row) : Bool := (List.range 10).all fun x => r.getD x 0 != 0

/-- Number of full rows among the rows of index `< n`. -/
def countFullBelow (b : Board) (n : ℕ) : ℕ :=
  (List.range n).countP fun i => rowFull (b.getD i [])

namespace V1

/-- Shape table `SHAPES` of src/tetromino.c: 7 types times 4 rotations. -/
def SHAPES : List (List Mask) :=
  [ [ [[0,0,0,0], [1,1,1,1], [0,0,0,0], [0,0,0,0]],
      [[0,0,1,0], [0,0,1,0], [0,0,1,0], [0,0,1,0]],
      [[0,0,0,0], [0,0,0,0], [1,1,1,1], [0,0,0,0]],
      [[0,1,0,0], [0,1,0,0], [0,1,0,0], [0,1,0,0]] ],
    [ [[0,1,1,0], [0,1,1,0], [0,0,0,0], [0,0,0,0]],
      [[0,1,1,0], [0,1,1,0], [0,0,0,0], [0,0,0,0]],
      [[0,1,1,0], [0,1,1,0], [0,0,0,0], [0,0,0,0]],
      [[0,1,1,0], [0,1,1,0], [0,0,0,0], [0,0,0,0]] ],
    [ [[0,1,0,0], [1,1,1,0], [0,0,0,0], [0,0,0,0]],
      [[0,1,0,0], [0,1,1,0], [0,1,0,0], [0,0,0,0]],
      [[0,0,0,0], [1,1,1,0], [0,1,0,0], [0,0,0,0]],
      [[0,1,0,0], [1,1,0,0], [0,1,0,0], [0,0,0,0]] ],
    [ [[0,1,1,0], [1,1,0,0], [0,0,0,0], [0,0,0,0]],
      [[0,1,0,0], [0,1,1,0], [0,0,1,0], [0,0,0,0]],
      [[0,0,0,0], [0,1,1,0], [1,1,0,0], [0,0,0,0]],
      [[1,0,0,0], [1,1,0,0], [0,1,0,0], [0,0,0,0]] ],
    [ [[1,1,0,0], [0,1,1,0], [0,0,0,0], [0,0,0,0]],
      [[0,0,1,0], [0,1,1,0], [0,1,0,0], [0,0,0,0]],
      [[0,0,0,0], [1,1,0,0], [0,1,1,0], [0,0,0,0]],
      [[0,1,0,0], [1,1,0,0], [1,0,0,0], [0,0,0,0]] ],
    [ [[1,0,0,0], [1,1,1,0], [0,0,0,0], [0,0,0,0]],
      [[0,1,1,0], [0,1,0,0], [0,1,0,0], [0,0,0,0]],
      [[0,0,0,0], [1,1,1,0], [0,0,1,0], [0,0,0,0]],
      [[0,1,0,0], [0,1,0,0], [1,1,0,0], [0,0,0,0]] ],
    [ [[0,0,1,0], [1,1,1,0], [0,0,0,0], [0,0,0,0]],
      [[0,1,0,0], [0,1,0,0], [0,1,1,0], [0,0,0,0]],
      [[0,0,0,0], [1,1,1,0], [1,0,0,0], [0,0,0,0]],
      [[1,1,0,0], [0,1,0,0], [0,1,0,0], [0,0,0,0]] ] ]

/-- `tetromino_get_shape`: rejects an out-of-range type, normalizes the
rotation with `% 4`. -/
def tetromino_get_shape (type rotation : ℤ) : Option Mask :=
  if type < 0 ∨ 7 ≤ type then none
  else some ((SHAPES.getD type.toNat []).getD (rotation % 4).toNat [])

/-- `tetromino_get_color`: the switch of src/tetromino.c
(COLOR_I = 1 .. COLOR_L = 7, default COLOR_EMPTY = 8). -/
def tetromino_get_color (type : ℤ) : ℤ :=
  match type with
  | 0 => 1
  | 1 => 2
  | 2 => 3
  | 3 => 4
  | 4 => 5
  | 5 => 6
  | 6 => 7
  | _ => 8

/-- `tetromino_create`. -/
def tetromino_create (type sx sy : ℤ) : Tetromino :=
  { type := type, rotation := 0, x := sx, y := sy }

/-- `tetromino_rotate_clockwise`. -/
def tetromino_rotate_clockwise (t : Tetromino) : Tetromino :=
  { t with rotation := (t.rotation + 1) % 4 }

/-- `tetromino_rotate_counter_clockwise`. -/
def tetromino_rotate_counter_clockwise (t : Tetromino) : Tetromino :=
  { t with rotation := (t.rotation + 4 - 1) % 4 }

/-- `tetromino_check_collision`: true when some occupied mask cell is out
of the left/right/bottom bounds, or lies on a non-empty board cell at a
row `≥ 0`; occupied cells at rows `< 0` are only checked against the
horizontal and bottom bounds. -/
def tetromino_check_collision (t : Tetromino) (b : Board) : Bool :=
  match tetromino_get_shape t.type t.rotation with
  | none => true
  | some shape =>
    (List.range 4).any fun row =>
      (List.range 4).any fun col =>
        maskCell shape row col != 0 &&
        (let bx := t.x + (col : ℤ)
         let byy := t.y + (row : ℤ)
         (decide (bx < 0) || decide (10 ≤ bx) || decide (20 ≤ byy)) ||
         (decide (0 ≤ byy) && (boardCell b byy bx != 0)))

/-- Engine phase enum `GameState` of src/game.h. -/
inductive GState where
  | playing
  | paused
  | game_over
deriving DecidableEq

/-- The `Game` struct of src/game.h. -/
structure Game where
  board : Board
  current_piece : Tetromino
  next_piece : Tetromino
  score : ℕ
  level : ℕ
  lines_cleared : ℕ
  speed_ms : ℤ
  state : GState
  running : Bool
deriving DecidableEq

/-- `game_move_piece`: commits the shifted piece iff it does not collide. -/
def game_move_piece (g : Game) (dx dy : ℤ) : Bool × Game :=
  let temp := { g.current_piece with
                x := g.current_piece.x + dx, y := g.current_piece.y + dy }
  if !tetromino_check_collision temp g.board then
    (true, { g with current_piece := temp })
  else
    (false, g)

/-- The wall-kick offset table of `game_rotate_piece`. -/
def KICKS : List (ℤ × ℤ) := [(0,0), (-1,0), (1,0), (0,-1), (-2,0), (2,0), (0,-2)]

/-- The kick loop of `game_rotate_piece`: the first offset whose shifted
candidate does not collide is returned. -/
def tryKicks (temp : Tetromino) (b : Board) : List (ℤ × ℤ) → Option Tetromino
  | [] => none
  | k :: ks =>
    let test := { temp with x := temp.x + k.1, y := temp.y + k.2 }
    if !tetromino_check_collision test b then some test else tryKicks temp b ks

/-- `game_rotate_piece`: rotate, then search the seven kick offsets. -/
def game_rotate_piece (g : Game) (clockwise : Bool) : Bool × Game :=
  let temp := if clockwise then tetromino_rotate_clockwise g.current_piece
              else tetromino_rotate_counter_clockwise g.current_piece
  match tryKicks temp g.board KICKS with
  | some test => (true, { g with current_piece := test })
  | none => (false, g)

/-- `game_lock_piece`: writes the color of the current piece into every
in-bounds occupied cell. -/
def game_lock_piece (g : Game) : Game :=
  match tetromino_get_shape g.current_piece.type g.current_piece.rotation with
  | none => g
  | some shape =>
    let color := tetromino_get_color g.current_piece.type
    { g with board :=
        (List.range 4).foldl (fun b row =>
          (List.range 4).foldl (fun b col =>
            if maskCell shape row col ≠ 0 then
              let bx := g.current_piece.x + (col : ℤ)
              let byy := g.current_piece.y + (row : ℤ)
              if 0 ≤ byy ∧ byy < 20 ∧ 0 ≤ bx ∧ bx < 10 then
                setCell b byy.toNat bx.toNat color
              else b
            else b) b) g.board }

/-- `game_calculate_score` of src/game.c: the base table, with no level
factor. -/
def game_calculate_score (lines : ℕ) : ℕ :=
  match lines with
  | 1 => 100
  | 2 => 300
  | 3 => 500
  | 4 => 800
  | _ => 0

end V1

theorem rowFull_emptyRow : rowFull emptyRow = false := by decide

theorem countFullBelow_succ (b : Board) (n : ℕ) :
    countFullBelow b (n + 1)
      = countFullBelow b n + (if rowFull (b.getD n []) then 1 else 0) := by
  simp [countFullBelow, List.range_succ, List.countP_append, List.countP_cons]

theorem countFullBelow_mono (b : Board) {n m : ℕ} (h : n ≤ m) :
    countFullBelow b n ≤ countFullBelow b m := by
  exact List.Sublist.countP_le _ (List.range_sublist.mpr h)

theorem getD_eraseIdx_lt (b : Board) {i y : ℕ} (h : i < y) :
    (b.eraseIdx y).getD i [] = b.getD i [] := by
  induction b generalizing i y with
  | nil => simp [List.eraseIdx]
  | cons r c ih =>
    cases y with
    | zero => omega
    | succ y2 =>
      cases i with
      | zero => simp [List.eraseIdx]
      | succ i2 => simpa [List.eraseIdx] using ih (by omega)

theorem countFullBelow_cons (r : Row) (c : Board) (n : ℕ) :
    countFullBelow (r :: c) (n + 1)
      = (if rowFull r then 1 else 0) + countFullBelow c n := by
  simp only [countFullBelow, List.range_succ_eq_map, List.countP_cons, List.countP_map]
  simp [Function.comp_def, Nat.add_comm]

theorem countFullBelow_clear_lt (b : Board) (y : ℕ)
    (hfull : rowFull (b.getD y []) = true) :
    countFullBelow (emptyRow :: b.eraseIdx y) (y + 1) < countFullBelow b (y + 1) := by
  have h1 : countFullBelow (emptyRow :: b.eraseIdx y) (y + 1)
      = countFullBelow (b.eraseIdx y) y := by
    rw [countFullBelow_cons, rowFull_emptyRow]
    simp
  have h2 : countFullBelow (b.eraseIdx y) y = countFullBelow b y := by
    unfold countFullBelow
    apply List.countP_congr
    intro i hi
    rw [getD_eraseIdx_lt b (List.mem_range.mp hi)]
  rw [h1, h2, countFullBelow_succ, hfull]
  simp

namespace V1

/-- The while-loop of `game_clear_lines` of src/game.c, in its original
shape: `y` scans from the bottom; a full row at `y` is removed by shifting
every row above it down one step and clearing the top row, and the scan
stays at `y`; otherwise `y` decreases.  Shifting rows `0..y-1` down into
`1..y` with row 0 cleared is, on the row list, exactly removing row `y`
and prepending an empty row.  Returns the final board and the number of
rows cleared. -/
def clearAux (b : Board) (y : ℕ) : Board × ℕ :=
  if hfull : rowFull (b.getD y []) = true then
    let p := clearAux (emptyRow :: b.eraseIdx y) y
    (p.1, p.2 + 1)
  else
    match y with
    | 0 => (b, 0)
    | Nat.succ y2 => clearAux b y2
termination_by (y + 1) + countFullBelow b (y + 1)
decreasing_by
· exact Nat.add_lt_add_left (countFullBelow_clear_lt b y hfull) _
· have := countFullBelow_mono b (Nat.le_succ (y2 + 1))
  simp only [Nat.succ_eq_add_one] at *
  omega

/-- `game_clear_lines`: runs the clearing scan from row 19 and stores the
resulting board. -/
def game_clear_lines (g : Game) : ℕ × Game :=
  let p := clearAux g.board 19
  (p.2, { g with board := p.1 })

end V1

theorem V1.shapes_occupied :
    ∀ t < 7, ∀ r < 4, ∃ i, i < 4 ∧ ∃ j, j < 4 ∧
      maskCell ((V1.SHAPES.getD t []).getD r []) i j ≠ 0 := by decide

theorem V1.tetromino_check_collision_none (t : Tetromino) (b : Board)
    (hs : V1.tetromino_get_shape t.type t.rotation = none) :
    V1.tetromino_check_collision t b = true := by
  unfold V1.tetromino_check_collision
  rw [hs]

theorem V1.tetromino_check_collision_some (t : Tetromino) (b : Board) (shape : Mask)
    (hs : V1.tetromino_get_shape t.type t.rotation = some shape) :
    V1.tetromino_check_collision t b =
      ((List.range 4).any fun row =>
        (List.range 4).any fun col =>
          maskCell shape row col != 0 &&
          (let bx := t.x + (col : ℤ)
           let byy := t.y + (row : ℤ)
           (decide (bx < 0) || decide (10 ≤ bx) || decide (20 ≤ byy)) ||
           (decide (0 ≤ byy) && (boardCell b byy bx != 0)))) := by
  unfold V1.tetromino_check_collision
  rw [hs]

theorem V1.collision_false_y_le (t : Tetromino) (b : Board)
    (h : V1.tetromino_check_collision t b = false) : t.y ≤ 19 := by
  rcases hs : V1.tetromino_get_shape t.type t.rotation with _ | shape
  · rw [V1.tetromino_check_collision_none t b hs] at h
    exact absurd h (by simp)
  · rw [V1.tetromino_check_collision_some t b shape hs] at h
    unfold V1.tetromino_get_shape at hs
    by_cases htype : t.type < 0 ∨ 7 ≤ t.type
    · simp [htype] at hs
    · rw [if_neg htype] at hs
      have htyN : t.type.toNat < 7 := by omega
      have hrotN : (t.rotation % 4).toNat < 4 := by omega
      obtain ⟨i, hi, j, hj, hocc⟩ :=
        V1.shapes_occupied t.type.toNat htyN (t.rotation % 4).toNat hrotN
      rw [Option.some.injEq] at hs
      rw [hs] at hocc
      by_contra hy
      push_neg at hy
      have htrue : ((List.range 4).any fun row =>
          (List.range 4).any fun col =>
            maskCell shape row col != 0 &&
            (let bx := t.x + (col : ℤ)
             let byy := t.y + (row : ℤ)
             (decide (bx < 0) || decide (10 ≤ bx) || decide (20 ≤ byy)) ||
             (decide (0 ≤ byy) && (boardCell b byy bx != 0)))) = true := by
        rw [List.any_eq_true]
        refine ⟨i, List.mem_range.mpr hi, ?_⟩
        rw [List.any_eq_true]
        refine ⟨j, List.mem_range.mpr hj, ?_⟩
        have h20 : (20 : ℤ) ≤ t.y + (i : ℤ) := by omega
        simp [hocc, h20]
      rw [h] at htrue
      exact absurd htrue (by simp)

theorem V1.game_move_piece_cases (g : V1.Game) (dx dy : ℤ) :
    (V1.tetromino_check_collision
        { g.current_piece with x := g.current_piece.x + dx, y := g.current_piece.y + dy }
        g.board = false ∧
      V1.game_move_piece g dx dy =
        (true, { g with current_piece :=
          { g.current_piece with x := g.current_piece.x + dx, y := g.current_piece.y + dy } })) ∨
    (V1.tetromino_check_collision
        { g.current_piece with x := g.current_piece.x + dx, y := g.current_piece.y + dy }
        g.board = true ∧
      V1.game_move_piece g dx dy = (false, g)) := by
  unfold V1.game_move_piece
  cases hB : V1.tetromino_check_collision
      { g.current_piece with x := g.current_piece.x + dx, y := g.current_piece.y + dy }
      g.board
  · left; simp [hB]
  · right; simp [hB]

namespace V1

/-- The descent loop of `game_hard_drop`: move down while the move
succeeds, counting the steps. -/
def game_hard_drop_aux (g : Game) : ℕ × Game :=
  let p := game_move_piece g 0 1
  if hmv : p.1 = true then
    let q := game_hard_drop_aux p.2
    (q.1 + 1, q.2)
  else (0, g)
termination_by (20 - g.current_piece.y).toNat
decreasing_by
  have hp : p = game_move_piece g 0 1 := rfl
  rcases game_move_piece_cases g 0 1 with ⟨hcoll, heq⟩ | ⟨hcoll, heq⟩
  · have hle := collision_false_y_le _ _ hcoll
    simp only [heq]
    simp at hle ⊢
    omega
  · rw [hp, heq] at hmv
    exact absurd hmv (by simp)

/-- `game_hard_drop`: runs the descent loop, then adds two bonus points
per dropped row. -/
def game_hard_drop (g : Game) : ℕ × Game :=
  let p := game_hard_drop_aux g
  (p.1, { p.2 with score := p.2.score + p.1 * 2 })

/-- `game_update_level`: `level = lines_cleared / 10 + 1` and
`speed = max(100, 1000 - (level - 1) * 50)` (SPEED_DECREMENT is 50 in
src/game.h). -/
def game_update_level (g : Game) : Game :=
  let level := g.lines_cleared / 10 + 1
  let speed := (1000 : ℤ) - ((level : ℤ) - 1) * 50
  { g with level := level, speed_ms := if speed < 100 then 100 else speed }

/-- `game_spawn_piece`: promotes `next` to `current` at the spawn anchor
`(BOARD_WIDTH/2 - 2, 0) = (3, 0)`, draws a fresh random `next`, and fails
into `STATE_GAME_OVER` when the promoted piece collides.  The board is
never written.  `r` is the raw `rand()` value. -/
def game_spawn_piece (g : Game) (r : ℕ) : Bool × Game :=
  let cur := { g.next_piece with x := (3 : ℤ), y := (0 : ℤ) }
  let nxt := tetromino_create ((r % 7 : ℕ) : ℤ) 3 0
  let g1 := { g with current_piece := cur, next_piece := nxt }
  if tetromino_check_collision g1.current_piece g1.board then
    (false, { g1 with state := GState.game_over })
  else (true, g1)

/-- `game_update`: the gravity tick.  On a blocked downward move it locks
the piece, clears lines, applies scoring and leveling, and spawns the
next piece, entering game over when the spawn fails. -/
def game_update (g : Game) (r : ℕ) : Bool × Game :=
  if !g.running then (false, g)
  else if g.state ≠ GState.playing then (true, g)
  else
    let mv := game_move_piece g 0 1
    if mv.1 then (true, mv.2)
    else
      let g1 := game_lock_piece g
      let cl := game_clear_lines g1
      let g2 := if 0 < cl.1 then
          game_update_level
            { cl.2 with score := cl.2.score + game_calculate_score cl.1,
                        lines_cleared := cl.2.lines_cleared + cl.1 }
        else cl.2
      let sp := game_spawn_piece g2 r
      if sp.1 then (true, sp.2) else (false, { sp.2 with state := GState.game_over })

/-- `game_reset`: clean board, two random pieces, fresh counters,
`STATE_PLAYING`.  `r1`, `r2` are the raw `rand()` values. -/
def game_reset (r1 r2 : ℕ) : Game :=
  { board := emptyBoard
    current_piece := tetromino_create ((r1 % 7 : ℕ) : ℤ) 3 0
    next_piece := tetromino_create ((r2 % 7 : ℕ) : ℤ) 3 0
    score := 0
    level := 1
    lines_cleared := 0
    speed_ms := 1000
    state := GState.playing
    running := true }

/-- `game_toggle_pause`. -/
def game_toggle_pause (g : Game) : Game :=
  if g.state = GState.playing then { g with state := GState.paused }
  else if g.state = GState.paused then { g with state := GState.playing }
  else g

/-- `game_set_board_cell`. -/
def game_set_board_cell (g : Game) (x y v : ℤ) : Game :=
  if x < 0 ∨ 10 ≤ x ∨ y < 0 ∨ 20 ≤ y then g
  else { g with board := setCell g.board y.toNat x.toNat v }

/-- `input_handle_left` of src/input.c. -/
def input_handle_left (g : Game) : Game :=
  if g.state = GState.playing then (game_move_piece g (-1) 0).2 else g

/-- `input_handle_right` of src/input.c. -/
def input_handle_right (g : Game) : Game :=
  if g.state = GState.playing then (game_move_piece g 1 0).2 else g

/-- `input_handle_down` of src/input.c: soft drop plus one bonus point. -/
def input_handle_down (g : Game) : Game :=
  if g.state = GState.playing then
    let mv := game_move_piece g 0 1
    { mv.2 with score := mv.2.score + 1 }
  else g

/-- `input_handle_rotate` of src/input.c. -/
def input_handle_rotate (g : Game) (clockwise : Bool) : Game :=
  if g.state = GState.playing then (game_rotate_piece g clockwise).2 else g

/-- `input_handle_hard_drop` of src/input.c: in `Playing`, hard-drops,
locks, clears, scores, and spawns, all in the one handler call. -/
def input_handle_hard_drop (g : Game) (r : ℕ) : Game :=
  if g.state = GState.playing then
    let hd := game_hard_drop g
    let g1 := game_lock_piece hd.2
    let cl := game_clear_lines g1
    let g2 := if 0 < cl.1 then
        game_update_level
          { cl.2 with score := cl.2.score + game_calculate_score cl.1,
                      lines_cleared := cl.2.lines_cleared + cl.1 }
      else cl.2
    let sp := game_spawn_piece g2 r
    if sp.1 then sp.2 else { sp.2 with state := GState.game_over }
  else g

end V1

namespace V2

/-- The shape tables `shape_I` .. `shape_L` of src/src/tetromino.c in
type order I, O, T, S, Z, J, L.  Unlike the V1 table, the I, S and Z
pieces repeat rotations 0 and 1 at rotations 2 and 3. -/
def shape_table : List (List Mask) :=
  [ [ [[0,0,0,0], [1,1,1,1], [0,0,0,0], [0,0,0,0]],
      [[0,0,1,0], [0,0,1,0], [0,0,1,0], [0,0,1,0]],
      [[0,0,0,0], [1,1,1,1], [0,0,0,0], [0,0,0,0]],
      [[0,0,1,0], [0,0,1,0], [0,0,1,0], [0,0,1,0]] ],
    [ [[0,1,1,0], [0,1,1,0], [0,0,0,0], [0,0,0,0]],
      [[0,1,1,0], [0,1,1,0], [0,0,0,0], [0,0,0,0]],
      [[0,1,1,0], [0,1,1,0], [0,0,0,0], [0,0,0,0]],
      [[0,1,1,0], [0,1,1,0], [0,0,0,0], [0,0,0,0]] ],
    [ [[0,1,0,0], [1,1,1,0], [0,0,0,0], [0,0,0,0]],
      [[0,1,0,0], [0,1,1,0], [0,1,0,0], [0,0,0,0]],
      [[0,0,0,0], [1,1,1,0], [0,1,0,0], [0,0,0,0]],
      [[0,1,0,0], [1,1,0,0], [0,1,0,0], [0,0,0,0]] ],
    [ [[0,1,1,0], [1,1,0,0], [0,0,0,0], [0,0,0,0]],
      [[0,1,0,0], [0,1,1,0], [0,0,1,0], [0,0,0,0]],
      [[0,1,1,0], [1,1,0,0], [0,0,0,0], [0,0,0,0]],
      [[0,1,0,0], [0,1,1,0], [0,0,1,0], [0,0,0,0]] ],
    [ [[1,1,0,0], [0,1,1,0], [0,0,0,0], [0,0,0,0]],
      [[0,0,1,0], [0,1,1,0], [0,1,0,0], [0,0,0,0]],
      [[1,1,0,0], [0,1,1,0], [0,0,0,0], [0,0,0,0]],
      [[0,0,1,0], [0,1,1,0], [0,1,0,0], [0,0,0,0]] ],
    [ [[1,0,0,0], [1,1,1,0], [0,0,0,0], [0,0,0,0]],
      [[0,1,1,0], [0,1,0,0], [0,1,0,0], [0,0,0,0]],
      [[0,0,0,0], [1,1,1,0], [0,0,1,0], [0,0,0,0]],
      [[0,1,0,0], [0,1,0,0], [1,1,0,0], [0,0,0,0]] ],
    [ [[0,0,1,0], [1,1,1,0], [0,0,0,0], [0,0,0,0]],
      [[0,1,0,0], [0,1,0,0], [0,1,1,0], [0,0,0,0]],
      [[0,0,0,0], [1,1,1,0], [1,0,0,0], [0,0,0,0]],
      [[1,1,0,0], [0,1,0,0], [0,1,0,0], [0,0,0,0]] ] ]

/-- `tetromino_type_is_valid`. -/
def tetromino_type_is_valid (type : ℤ) : Bool :=
  decide (0 ≤ type) && decide (type < 7)

/-- `tetromino_rotation_is_valid`. -/
def tetromino_rotation_is_valid (rotation : ℤ) : Bool :=
  decide (0 ≤ rotation) && decide (rotation < 4)

/-- `tetromino_get_shape` of src/src/tetromino.c: rejects an invalid type
or rotation. -/
def tetromino_get_shape (type rotation : ℤ) : Option Mask :=
  if !tetromino_type_is_valid type || !tetromino_rotation_is_valid rotation then none
  else some ((shape_table.getD type.toNat []).getD rotation.toNat [])

/-- `tetromino_get_color` of src/src/tetromino.c: `-1` for an invalid
type, otherwise the `color_table` entry. -/
def tetromino_get_color (type : ℤ) : ℤ :=
  if !tetromino_type_is_valid type then -1
  else ([1, 2, 3, 4, 5, 6, 7] : List ℤ).getD type.toNat 0

/-- `tetromino_create` of src/src/tetromino.c: spawns at
`(TETRO_START_X, TETRO_START_Y) = (3, 0)`, rotation 0. -/
def tetromino_create (type : ℤ) : Tetromino :=
  { type := type, rotation := 0, x := 3, y := 0 }

/-- `tetromino_rotate_clockwise` of src/src/tetromino.c. -/
def tetromino_rotate_clockwise (rotation : ℤ) : ℤ := (rotation + 1) % 4

/-- `tetromino_rotate_counter_clockwise` of src/src/tetromino.c. -/
def tetromino_rotate_counter_clockwise (rotation : ℤ) : ℤ := (rotation + 4 - 1) % 4

/-- The `GameState` struct of src/src/game.h. -/
structure GameState where
  board : Board
  current : Tetromino
  next : Tetromino
  score : ℕ
  level : ℕ
  lines : ℕ
  is_running : Bool
  is_paused : Bool
deriving DecidableEq

/-- `game_is_valid_position`: every occupied mask cell must be inside
`[0,10) x [0,20)` (the strict row policy: any `row < 0` is rejected) and
on an empty board cell. -/
def game_is_valid_position (g : GameState) (t : Tetromino) : Bool :=
  match tetromino_get_shape t.type t.rotation with
  | none => false
  | some shape =>
    (List.range 4).all fun row =>
      (List.range 4).all fun col =>
        if maskCell shape row col == 1 then
          (let bx := t.x + (col : ℤ)
           let byy := t.y + (row : ℤ)
           decide (0 ≤ bx) && decide (bx < 10) &&
           decide (0 ≤ byy) && decide (byy < 20) &&
           (boardCell g.board byy bx == 0))
        else true

/-- `game_spawn_piece` of src/src/game.c: creates the piece of the given
type at the spawn anchor; when the spawn placement is invalid the engine
stops (`is_running = 0`) and the board and current piece are untouched. -/
def game_spawn_piece (g : GameState) (type : ℤ) : Bool × GameState :=
  let new_piece := tetromino_create type
  if !game_is_valid_position g new_piece then (false, { g with is_running := false })
  else (true, { g with current := new_piece })

/-- `game_move_current`. -/
def game_move_current (g : GameState) (dx dy : ℤ) : Bool × GameState :=
  let test := { g.current with x := g.current.x + dx, y := g.current.y + dy }
  if !game_is_valid_position g test then (false, g)
  else (true, { g with current := test })

/-- `game_rotate_current`: tries the naive rotation only; there is no
kick search in this version. -/
def game_rotate_current (g : GameState) (clockwise : Bool) : Bool × GameState :=
  let test := { g.current with rotation :=
    if clockwise then tetromino_rotate_clockwise g.current.rotation
    else tetromino_rotate_counter_clockwise g.current.rotation }
  if !game_is_valid_position g test then (false, g)
  else (true, { g with current := test })

/-- The scan of `game_clear_lines` of src/src/game.c: `read_row` runs
from the bottom (the argument `n` is `read_row + 1`); full rows are
skipped and counted, non-full rows are copied down to `write_row`. -/
def copyAux (b : Board) (n : ℕ) (write : ℤ) (cnt : ℕ) : Board × ℤ × ℕ :=
  match n with
  | 0 => (b, write, cnt)
  | Nat.succ r =>
    if rowFull (b.getD r []) then copyAux b r write (cnt + 1)
    else
      let b2 := if write ≠ (r : ℤ) then b.set write.toNat (b.getD r []) else b
      copyAux b2 r (write - 1) cnt

/-- The final `memset` loop of `game_clear_lines` of src/src/game.c:
clears the rows of index `< n`. -/
def zeroRows (b : Board) : ℕ → Board
  | 0 => b
  | Nat.succ r => zeroRows (b.set r emptyRow) r

/-- `game_calculate_score` of src/src/game.c: the base table multiplied
by the level. -/
def game_calculate_score (lines_cleared level : ℕ) : ℕ :=
  match lines_cleared with
  | 1 => 100 * level
  | 2 => 300 * level
  | 3 => 500 * level
  | 4 => 800 * level
  | _ => 0

/-- `game_clear_lines` of src/src/game.c: compacts the non-full rows to
the bottom, zeroes the freed top rows, and on a positive count updates
lines, score (at the pre-clear level) and level. -/
def game_clear_lines (g : GameState) : ℕ × GameState :=
  let p := copyAux g.board 20 19 0
  let b2 := zeroRows p.1 (p.2.1 + 1).toNat
  if 0 < p.2.2 then
    let lines2 := g.lines + p.2.2
    (p.2.2, { g with board := b2, lines := lines2,
                     score := g.score + game_calculate_score p.2.2 g.level,
                     level := lines2 / 10 + 1 })
  else (p.2.2, { g with board := b2 })

/-- `game_lock_piece` of src/src/game.c: writes the current piece into
the board, promotes `next` to `current` with a fresh random `next`
(raw `rand()` value `r`), stops the engine when the promoted piece has no
room, and otherwise clears lines, returning the cleared count. -/
def game_lock_piece (g : GameState) (r : ℕ) : ℕ × GameState :=
  match tetromino_get_shape g.current.type g.current.rotation with
  | none => (0, g)
  | some shape =>
    let color := tetromino_get_color g.current.type
    let b := (List.range 4).foldl (fun b row =>
        (List.range 4).foldl (fun b col =>
          if maskCell shape row col == 1 then
            let bx := g.current.x + (col : ℤ)
            let byy := g.current.y + (row : ℤ)
            if 0 ≤ bx ∧ bx < 10 ∧ 0 ≤ byy ∧ byy < 20 then
              setCell b byy.toNat bx.toNat color
            else b
          else b) b) g.board
    let g1 := { g with board := b, current := g.next,
                       next := tetromino_create ((r % 7 : ℕ) : ℤ) }
    if !game_is_valid_position g1 g1.current then (0, { g1 with is_running := false })
    else game_clear_lines g1

/-- `game_get_speed_ms`: clamps the level below at 1, then
`max(100, 1000 - (level - 1) * 100)`. -/
def game_get_speed_ms (level : ℤ) : ℤ :=
  let level2 := if level < 1 then 1 else level
  let speed := 1000 - (level2 - 1) * 100
  if speed < 100 then 100 else speed

/-- `game_set_next_type`. -/
def game_set_next_type (g : GameState) (type : ℤ) : GameState :=
  { g with next := tetromino_create type }

end V2

theorem V2.shape_table_occupied :
    ∀ t < 7, ∀ r < 4, ∃ i, i < 4 ∧ ∃ j, j < 4 ∧
      maskCell ((V2.shape_table.getD t []).getD r []) i j = 1 := by decide

theorem V2.game_is_valid_position_none (g : V2.GameState) (t : Tetromino)
    (hs : V2.tetromino_get_shape t.type t.rotation = none) :
    V2.game_is_valid_position g t = false := by
  unfold V2.game_is_valid_position
  rw [hs]

theorem V2.game_is_valid_position_some (g : V2.GameState) (t : Tetromino) (shape : Mask)
    (hs : V2.tetromino_get_shape t.type t.rotation = some shape) :
    V2.game_is_valid_position g t =
      ((List.range 4).all fun row =>
        (List.range 4).all fun col =>
          if maskCell shape row col == 1 then
            (let bx := t.x + (col : ℤ)
             let byy := t.y + (row : ℤ)
             decide (0 ≤ bx) && decide (bx < 10) &&
             decide (0 ≤ byy) && decide (byy < 20) &&
             (boardCell g.board byy bx == 0))
          else true) := by
  unfold V2.game_is_valid_position
  rw [hs]

theorem V2.valid_y_le (g : V2.GameState) (t : Tetromino)
    (h : V2.game_is_valid_position g t = true) : t.y ≤ 19 := by
  rcases hs : V2.tetromino_get_shape t.type t.rotation with _ | shape
  · rw [V2.game_is_valid_position_none g t hs] at h
    exact absurd h (by simp)
  · rw [V2.game_is_valid_position_some g t shape hs] at h
    have hv := hs
    unfold V2.tetromino_get_shape at hv
    by_cases hTy : V2.tetromino_type_is_valid t.type = true
    · by_cases hRot : V2.tetromino_rotation_is_valid t.rotation = true
      · simp only [hTy, hRot, Bool.not_true, Bool.or_self, Bool.false_eq_true, if_false,
          Option.some.injEq] at hv
        simp only [V2.tetromino_type_is_valid, Bool.and_eq_true, decide_eq_true_eq] at hTy
        simp only [V2.tetromino_rotation_is_valid, Bool.and_eq_true, decide_eq_true_eq] at hRot
        have htyN : t.type.toNat < 7 := by omega
        have hrotN : t.rotation.toNat < 4 := by omega
        obtain ⟨i, hi, j, hj, hocc⟩ := V2.shape_table_occupied t.type.toNat htyN t.rotation.toNat hrotN
        rw [hv] at hocc
        rw [List.all_eq_true] at h
        have hrow := h i (List.mem_range.mpr hi)
        rw [List.all_eq_true] at hrow
        have hcell := hrow j (List.mem_range.mpr hj)
        rw [hocc] at hcell
        simp only [beq_self_eq_true, if_true, Bool.and_eq_true, decide_eq_true_eq] at hcell
        omega
      · simp [hRot] at hv
    · simp [hTy] at hv

theorem V2.game_move_current_cases (g : V2.GameState) (dx dy : ℤ) :
    (V2.game_is_valid_position g
        { g.current with x := g.current.x + dx, y := g.current.y + dy } = true ∧
      V2.game_move_current g dx dy =
        (true, { g with current :=
          { g.current with x := g.current.x + dx, y := g.current.y + dy } })) ∨
    (V2.game_is_valid_position g
        { g.current with x := g.current.x + dx, y := g.current.y + dy } = false ∧
      V2.game_move_current g dx dy = (false, g)) := by
  unfold V2.game_move_current
  cases hB : V2.game_is_valid_position g
      { g.current with x := g.current.x + dx, y := g.current.y + dy }
  · right; simp [hB]
  · left; simp [hB]

namespace V2

/-- The descent loop of `game_hard_drop` of src/src/game.c. -/
def game_hard_drop_aux (g : GameState) : ℕ × GameState :=
  let p := game_move_current g 0 1
  if hmv : p.1 = true then
    let q := game_hard_drop_aux p.2
    (q.1 + 1, q.2)
  else (0, g)
termination_by (20 - g.current.y).toNat
decreasing_by
  have hp : p = game_move_current g 0 1 := rfl
  rcases game_move_current_cases g 0 1 with ⟨hvalid, heq⟩ | ⟨hvalid, heq⟩
  · have hle := valid_y_le _ _ hvalid
    simp only [heq]
    simp at hle ⊢
    omega
  · rw [hp, heq] at hmv
    exact absurd hmv (by simp)

/-- `game_hard_drop` of src/src/game.c: descends until blocked, then
locks (which clears lines and promotes the next piece); the returned
value is the drop distance and no bonus points are added. -/
def game_hard_drop (g : GameState) (r : ℕ) : ℕ × GameState :=
  let p := game_hard_drop_aux g
  let q := game_lock_piece p.2 r
  (p.1, q.2)

/-- `game_init` of src/src/game.c: clears the board, resets the
statistics, draws a random `next` and spawns a random first piece
(`r1`, `r2` are the raw `rand()` values).  The C `current` field is
uninitialized until `game_spawn_piece` assigns it; the placeholder piece
used here is overwritten whenever the spawn succeeds, which on the
cleared board is always. -/
def game_init (r1 r2 : ℕ) : GameState :=
  let g0 : GameState :=
    { board := emptyBoard
      current := tetromino_create 0
      next := tetromino_create ((r1 % 7 : ℕ) : ℤ)
      score := 0
      level := 1
      lines := 0
      is_running := true
      is_paused := false }
  (game_spawn_piece g0 ((r2 % 7 : ℕ) : ℤ)).2

end V2

/-- The strict placement predicate, written from the words of the spec
(section 4.3): the shape lookup succeeds and every occupied mask cell,
at absolute position anchor plus offset, is inside `[0,10) x [0,20)`
(any `row < 0` is invalid) and lies on an empty board cell. -/
def strictPlacementSpec (shape? : Option Mask) (t : Tetromino) (b : Board) : Prop :=
  ∃ m, shape? = some m ∧ ∀ i < 4, ∀ j < 4, maskCell m i j ≠ 0 →
    0 ≤ t.x + (j : ℤ) ∧ t.x + (j : ℤ) < 10 ∧
    0 ≤ t.y + (i : ℤ) ∧ t.y + (i : ℤ) < 20 ∧
    boardCell b (t.y + (i : ℤ)) (t.x + (j : ℤ)) = 0

/-- The lenient placement predicate, written from the words of the spec
(design note on the legacy variant): occupied cells must respect the
horizontal bounds and the bottom bound, and must lie on an empty board
cell whenever their row is `≥ 0`; rows `< 0` pass through. -/
def lenientPlacementSpec (shape? : Option Mask) (t : Tetromino) (b : Board) : Prop :=
  ∃ m, shape? = some m ∧ ∀ i < 4, ∀ j < 4, maskCell m i j ≠ 0 →
    0 ≤ t.x + (j : ℤ) ∧ t.x + (j : ℤ) < 10 ∧
    t.y + (i : ℤ) < 20 ∧
    (0 ≤ t.y + (i : ℤ) → boardCell b (t.y + (i : ℤ)) (t.x + (j : ℤ)) = 0)

/-- The base line-clear scoring table of the spec (lines cleared at one
lock to points): 1 to 100, 2 to 300, 3 to 500, 4 to 800, other 0. -/
def scoreTable (k : ℕ) : ℕ :=
  match k with
  | 1 => 100
  | 2 => 300
  | 3 => 500
  | 4 => 800
  | _ => 0

theorem V2.get_shape_cells (ty ro : ℤ) (m : Mask)
    (hs : V2.tetromino_get_shape ty ro = some m) :
    ∀ i < 4, ∀ j < 4, maskCell m i j = 0 ∨ maskCell m i j = 1 := by
  have h01 : ∀ t < 7, ∀ r < 4, ∀ i < 4, ∀ j < 4,
      maskCell ((V2.shape_table.getD t []).getD r []) i j = 0 ∨
      maskCell ((V2.shape_table.getD t []).getD r []) i j = 1 := by decide
  unfold V2.tetromino_get_shape at hs
  by_cases hTy : V2.tetromino_type_is_valid ty = true
  · by_cases hRot : V2.tetromino_rotation_is_valid ro = true
    · simp only [hTy, hRot, Bool.not_true, Bool.or_self, Bool.false_eq_true, if_false,
        Option.some.injEq] at hs
      simp only [V2.tetromino_type_is_valid, Bool.and_eq_true, decide_eq_true_eq] at hTy
      simp only [V2.tetromino_rotation_is_valid, Bool.and_eq_true, decide_eq_true_eq] at hRot
      rw [← hs]
      exact h01 ty.toNat (by omega) ro.toNat (by omega)
    · simp [hRot] at hs
  · simp [hTy] at hs

theorem V2.game_is_valid_position_iff (g : V2.GameState) (t : Tetromino) :
    V2.game_is_valid_position g t = true ↔
      strictPlacementSpec (V2.tetromino_get_shape t.type t.rotation) t g.board := by
  rcases hs : V2.tetromino_get_shape t.type t.rotation with _ | shape
  · rw [V2.game_is_valid_position_none g t hs]
    unfold strictPlacementSpec
    simp
  · rw [V2.game_is_valid_position_some g t shape hs]
    unfold strictPlacementSpec
    have hcells := V2.get_shape_cells t.type t.rotation shape hs
    constructor
    · intro h
      refine ⟨shape, rfl, ?_⟩
      intro i hi j hj hocc
      rw [List.all_eq_true] at h
      have hrow := h i (List.mem_range.mpr hi)
      rw [List.all_eq_true] at hrow
      have hcell := hrow j (List.mem_range.mpr hj)
      have h1 : maskCell shape i j = 1 := by
        rcases hcells i hi j hj with h0 | h1
        · exact absurd h0 hocc
        · exact h1
      rw [h1] at hcell
      simp only [beq_self_eq_true, if_true, Bool.and_eq_true, decide_eq_true_eq,
        beq_iff_eq] at hcell
      exact ⟨hcell.1.1.1.1, hcell.1.1.1.2, hcell.1.1.2, hcell.1.2, hcell.2⟩
    · rintro ⟨m, hm, hall⟩
      rw [Option.some.injEq] at hm
      rw [← hm] at hall
      rw [List.all_eq_true]
      intro i hi
      rw [List.all_eq_true]
      intro j hj
      rw [List.mem_range] at hi hj
      by_cases hocc : maskCell shape i j = 1
      · rw [hocc]
        have hp := hall i hi j hj (by rw [hocc]; exact one_ne_zero)
        simp only [beq_self_eq_true, if_true, Bool.and_eq_true, decide_eq_true_eq, beq_iff_eq]
        exact ⟨⟨⟨⟨hp.1, hp.2.1⟩, hp.2.2.1⟩, hp.2.2.2.1⟩, hp.2.2.2.2⟩
      · have hocc2 : (maskCell shape i j == 1) = false := by
          simp only [beq_eq_false_iff_ne, ne_eq]
          exact hocc
        rw [hocc2]
        simp

theorem V1.tetromino_check_collision_iff (t : Tetromino) (b : Board) :
    V1.tetromino_check_collision t b = false ↔
      lenientPlacementSpec (V1.tetromino_get_shape t.type t.rotation) t b := by
  rcases hs : V1.tetromino_get_shape t.type t.rotation with _ | shape
  · rw [V1.tetromino_check_collision_none t b hs]
    unfold lenientPlacementSpec
    simp
  · rw [V1.tetromino_check_collision_some t b shape hs]
    unfold lenientPlacementSpec
    constructor
    · intro h
      refine ⟨shape, rfl, ?_⟩
      intro i hi j hj hocc
      rw [List.any_eq_false] at h
      have hrow := h i (List.mem_range.mpr hi)
      rw [List.any_eq_true] at hrow
      push_neg at hrow
      have hcell := hrow j (List.mem_range.mpr hj)
      simp only [Bool.and_eq_true, Bool.or_eq_true, decide_eq_true_eq, bne_iff_ne,
        ne_eq, not_and, not_or] at hcell
      have hc2 := hcell hocc
      refine ⟨by omega, by omega, by omega, ?_⟩
      intro hge
      by_contra hcellne
      exact hc2.2 hge hcellne
    · rintro ⟨m, hm, hall⟩
      rw [Option.some.injEq] at hm
      rw [← hm] at hall
      rw [List.any_eq_false]
      intro i hi
      rw [List.any_eq_true]
      push_neg
      intro j hj
      rw [List.mem_range] at hi hj
      simp only [Bool.and_eq_true, Bool.or_eq_true, decide_eq_true_eq, bne_iff_ne,
        ne_eq, not_and, not_or]
      intro hocc
      have hp := hall i hi j hj hocc
      obtain ⟨hp1, hp2, hp3, hp4⟩ := hp
      refine ⟨⟨⟨by omega, by omega⟩, by omega⟩, ?_⟩
      intro hge
      exact not_not_intro (hp4 hge)

/-- The candidate piece of kick number `i` in the V1 kick search. -/
def V1.kickCandidate (temp : Tetromino) (i : ℕ) : Tetromino :=
  { temp with x := temp.x + (V1.KICKS.getD i (0, 0)).1,
              y := temp.y + (V1.KICKS.getD i (0, 0)).2 }

/-- The candidate produced by the rotation step of `game_rotate_piece`
before any kick: rotation index `(current plus minus 1) mod 4`. -/
def V1.rotatedPiece (g : V1.Game) (clockwise : Bool) : Tetromino :=
  if clockwise then V1.tetromino_rotate_clockwise g.current_piece
  else V1.tetromino_rotate_counter_clockwise g.current_piece

theorem V1.tryKicks_spec (temp : Tetromino) (b : Board) (ks : List (ℤ × ℤ)) :
    (V1.tryKicks temp b ks = none ∧ ∀ k ∈ ks,
        V1.tetromino_check_collision
          { temp with x := temp.x + k.1, y := temp.y + k.2 } b = true) ∨
    (∃ i < ks.length,
        V1.tryKicks temp b ks = some
          { temp with x := temp.x + (ks.getD i (0, 0)).1, y := temp.y + (ks.getD i (0, 0)).2 } ∧
        V1.tetromino_check_collision
          { temp with x := temp.x + (ks.getD i (0, 0)).1, y := temp.y + (ks.getD i (0, 0)).2 } b
          = false ∧
        ∀ j < i, V1.tetromino_check_collision
          { temp with x := temp.x + (ks.getD j (0, 0)).1, y := temp.y + (ks.getD j (0, 0)).2 } b
          = true) := by
  induction ks with
  | nil => left; constructor; rfl; simp
  | cons k ks ih =>
    by_cases hc : V1.tetromino_check_collision
        { temp with x := temp.x + k.1, y := temp.y + k.2 } b = true
    · rcases ih with ⟨hnone, hall⟩ | ⟨i, hi, heq, hvalid, hbefore⟩
      · left
        constructor
        · simp [V1.tryKicks, hc, hnone]
        · intro k2 hk2
          rcases List.mem_cons.mp hk2 with rfl | h2
          · exact hc
          · exact hall _ h2
      · right
        refine ⟨i + 1, by simpa using hi, ?_, ?_, ?_⟩
        · simpa [V1.tryKicks, hc, List.getD_cons_succ] using heq
        · simpa [List.getD_cons_succ] using hvalid
        · intro j hj
          cases j with
          | zero => simpa [List.getD_cons_zero] using hc
          | succ j2 => simpa [List.getD_cons_succ] using hbefore j2 (by omega)
    · right
      rw [Bool.not_eq_true] at hc
      refine ⟨0, by simp, ?_, ?_, ?_⟩
      · simp [V1.tryKicks, hc, List.getD_cons_zero]
      · simpa [List.getD_cons_zero] using hc
      · intro j hj
        omega

/-- The naive rotation candidate of `game_rotate_current` of
src/src/game.c. -/
def V2.rotatedPiece (g : V2.GameState) (clockwise : Bool) : Tetromino :=
  { g.current with rotation :=
      if clockwise then V2.tetromino_rotate_clockwise g.current.rotation
      else V2.tetromino_rotate_counter_clockwise g.current.rotation }

/-- A V2 state with an empty board and a vertical I piece flush against
the right wall: the naive clockwise rotation is blocked by the wall, but
the kick offset `(-1, 0)` of the spec would fit. -/
def gC5 : V2.GameState :=
  { board := emptyBoard
    current := ⟨0, 1, 7, 0⟩
    next := V2.tetromino_create 0
    score := 0
    level := 1
    lines := 0
    is_running := true
    is_paused := false }

theorem V1.game_rotate_piece_spec (g : V1.Game) (cw : Bool) :
    (∃ i < 7,
        (∀ j < i, V1.tetromino_check_collision
            (V1.kickCandidate (V1.rotatedPiece g cw) j) g.board = true) ∧
        V1.tetromino_check_collision
            (V1.kickCandidate (V1.rotatedPiece g cw) i) g.board = false ∧
        V1.game_rotate_piece g cw =
          (true, { g with current_piece := V1.kickCandidate (V1.rotatedPiece g cw) i })) ∨
    ((∀ i < 7, V1.tetromino_check_collision
        (V1.kickCandidate (V1.rotatedPiece g cw) i) g.board = true) ∧
      V1.game_rotate_piece g cw = (false, g)) := by
  have hunf : V1.game_rotate_piece g cw =
      (match V1.tryKicks (V1.rotatedPiece g cw) g.board V1.KICKS with
       | some test => (true, { g with current_piece := test })
       | none => (false, g)) := rfl
  rcases V1.tryKicks_spec (V1.rotatedPiece g cw) g.board V1.KICKS with
    ⟨hnone, hall⟩ | ⟨i, hi, heq, hvalid, hbefore⟩
  · right
    constructor
    · intro i hi
      have hmem : V1.KICKS.getD i (0, 0) ∈ V1.KICKS := by
        interval_cases i <;> decide
      exact hall _ hmem
    · rw [hunf, hnone]
  · left
    have hlen : V1.KICKS.length = 7 := rfl
    refine ⟨i, by omega, ?_, ?_, ?_⟩
    · intro j hj
      exact hbefore j hj
    · exact hvalid
    · rw [hunf, heq]
      rfl

theorem V2.game_rotate_current_spec (g : V2.GameState) (cw : Bool) :
    (V2.game_is_valid_position g (V2.rotatedPiece g cw) = true →
      V2.game_rotate_current g cw = (true, { g with current := V2.rotatedPiece g cw })) ∧
    (V2.game_is_valid_position g (V2.rotatedPiece g cw) = false →
      V2.game_rotate_current g cw = (false, g)) := by
  constructor
  · intro hv
    unfold V2.game_rotate_current
    unfold V2.rotatedPiece at hv ⊢
    simp [hv]
  · intro hv
    unfold V2.game_rotate_current
    unfold V2.rotatedPiece at hv
    simp [hv]

/-- C1: the spec claims the placement check is valid iff every occupied
cell is inside `[0,10) x [0,20)` (strict: `row < 0` invalid) and on an
empty cell.  The V1 check `tetromino_check_collision` violates the strict
policy: the I piece with anchor `(3, -2)` on the empty board has its four
occupied cells at row `-1`, yet the check reports no collision. -/
theorem c1_strict_policy_counterexample :
    V1.tetromino_check_collision ⟨0, 0, 3, -2⟩ emptyBoard = false ∧
    ¬ strictPlacementSpec (V1.tetromino_get_shape 0 0) ⟨0, 0, 3, -2⟩ emptyBoard := by
  constructor
  · decide
  · rintro ⟨m, hm, hall⟩
    have hm2 : V1.tetromino_get_shape (0 : ℤ) 0
        = some [[0,0,0,0], [1,1,1,1], [0,0,0,0], [0,0,0,0]] := by decide
    rw [hm2, Option.some.injEq] at hm
    have h1 := hall 1 (by omega) 0 (by omega) (by rw [← hm]; decide)
    have h2 := h1.2.2.1
    norm_num at h2

/-- C1 (amended): `game_is_valid_position` of src/src/game.c implements
exactly the strict placement predicate of the spec, while the legacy
check `tetromino_check_collision` of src/tetromino.c implements the
lenient variant: horizontal and bottom bounds always, occupancy only for
rows `≥ 0`, with rows `< 0` passing through. -/
theorem c1_placement_validity :
    (∀ (g : V2.GameState) (t : Tetromino),
        V2.game_is_valid_position g t = true ↔
          strictPlacementSpec (V2.tetromino_get_shape t.type t.rotation) t g.board) ∧
    (∀ (t : Tetromino) (b : Board),
        V1.tetromino_check_collision t b = false ↔
          lenientPlacementSpec (V1.tetromino_get_shape t.type t.rotation) t b) :=
  ⟨V2.game_is_valid_position_iff, V1.tetromino_check_collision_iff⟩

/-- C5: the spec claims rotation tries the seven kick offsets in order.
`game_rotate_current` of src/src/game.c does not: for the state `gC5`
(vertical I at the right wall) the naive candidate is invalid, the kick
offset `(-1, 0)` would be valid (second conjunct), yet the rotation
fails and leaves the state unchanged (first conjunct). -/
theorem c5_kick_counterexample :
    V2.game_rotate_current gC5 true = (false, gC5) ∧
    V2.game_is_valid_position gC5 ⟨0, 2, 6, 0⟩ = true := by decide

/-- C5 (amended): `game_rotate_piece` of src/game.c rotates by
`(current plus minus 1) mod 4` and commits the first of the seven kick
offsets whose candidate does not collide, failing with the state
unchanged when all seven collide; `game_rotate_current` of src/src/game.c
instead tries only the naive candidate (offset `(0,0)`), committing it
when valid and otherwise failing with the state unchanged. -/
theorem c5_rotation_behavior :
    (∀ (g : V1.Game) (cw : Bool),
      (∃ i < 7,
          (∀ j < i, V1.tetromino_check_collision
              (V1.kickCandidate (V1.rotatedPiece g cw) j) g.board = true) ∧
          V1.tetromino_check_collision
              (V1.kickCandidate (V1.rotatedPiece g cw) i) g.board = false ∧
          V1.game_rotate_piece g cw =
            (true, { g with current_piece := V1.kickCandidate (V1.rotatedPiece g cw) i })) ∨
      ((∀ i < 7, V1.tetromino_check_collision
          (V1.kickCandidate (V1.rotatedPiece g cw) i) g.board = true) ∧
        V1.game_rotate_piece g cw = (false, g))) ∧
    (∀ (g : V2.GameState) (cw : Bool),
      (V2.game_is_valid_position g (V2.rotatedPiece g cw) = true →
        V2.game_rotate_current g cw = (true, { g with current := V2.rotatedPiece g cw })) ∧
      (V2.game_is_valid_position g (V2.rotatedPiece g cw) = false →
        V2.game_rotate_current g cw = (false, g))) :=
  ⟨V1.game_rotate_piece_spec, V2.game_rotate_current_spec⟩

/-- C5 witness: the amended rotation behavior applied at the concrete
state `gC5`: the V2 naive candidate is invalid there, so the rotation
returns failure with the state unchanged. -/
theorem c5_rotation_behavior_witness :
    V2.game_is_valid_position gC5 (V2.rotatedPiece gC5 true) = false ∧
    V2.game_rotate_current gC5 true = (false, gC5) :=
  ⟨by decide, (c5_rotation_behavior.2 gC5 true).2 (by decide)⟩

/-- C7: the spec claims the drop interval is
`max(100, 1000 - (level - 1) * 100)`.  In V1 the `SPEED_DECREMENT` is 50:
after ten cleared lines the level is 2 and `game_update_level` stores a
speed of 950 ms, not the 900 ms the claim requires. -/
theorem c7_speed_counterexample :
    (V1.game_update_level { V1.game_reset 0 0 with lines_cleared := 10 }).level = 2 ∧
    (V1.game_update_level { V1.game_reset 0 0 with lines_cleared := 10 }).speed_ms = 950 ∧
    (950 : ℤ) ≠ max 100 (1000 - ((2 : ℤ) - 1) * 100) := by decide

/-- C7 (amended): `game_get_speed_ms` of src/src/game.c equals
`max(100, 1000 - (level - 1) * 100)` for every level `≥ 1`, while the V1
`game_update_level` stores `max(100, 1000 - (level - 1) * 50)`
(SPEED_DECREMENT 50), both clamped at the 100 ms floor. -/
theorem c7_drop_interval :
    (∀ L : ℤ, 1 ≤ L → V2.game_get_speed_ms L = max 100 (1000 - (L - 1) * 100)) ∧
    (∀ g : V1.Game, (V1.game_update_level g).speed_ms
        = max 100 (1000 - (((V1.game_update_level g).level : ℤ) - 1) * 50)) := by
  constructor
  · intro L hL
    simp only [V2.game_get_speed_ms]
    split_ifs <;> omega
  · intro g
    simp only [V1.game_update_level]
    split_ifs <;> omega

/-- C7 witness: the V2 interval formula applied at level 3 gives 800 ms. -/
theorem c7_drop_interval_witness :
    1 ≤ (3 : ℤ) ∧ V2.game_get_speed_ms 3 = max 100 (1000 - ((3 : ℤ) - 1) * 100) :=
  ⟨by decide, c7_drop_interval.1 3 (by decide)⟩

theorem getD_eraseIdx_ge {α : Type} (l : List α) (d : α) {j y : ℕ} (hy : y ≤ j) :
    (l.eraseIdx y).getD j d = l.getD (j + 1) d := by
  induction l generalizing y j with
  | nil => simp [List.eraseIdx]
  | cons r c ih =>
    cases y with
    | zero => simp [List.eraseIdx]
    | succ y2 =>
      obtain ⟨j2, rfl⟩ : ∃ j2, j = j2 + 1 := ⟨j - 1, by omega⟩
      simpa [List.eraseIdx] using ih (by omega)

theorem take_eraseIdx_self {α : Type} (l : List α) (y : ℕ) :
    (l.eraseIdx y).take y = l.take y := by
  induction l generalizing y with
  | nil => simp [List.eraseIdx]
  | cons r c ih =>
    cases y with
    | zero => simp
    | succ y2 => simpa [List.eraseIdx] using ih y2

theorem drop_eraseIdx_self {α : Type} (l : List α) (y : ℕ) :
    (l.eraseIdx y).drop y = l.drop (y + 1) := by
  induction l generalizing y with
  | nil => simp [List.eraseIdx]
  | cons r c ih =>
    cases y with
    | zero => simp [List.eraseIdx]
    | succ y2 => simpa [List.eraseIdx] using ih y2

theorem take_succ_getD {α : Type} (l : List α) (d : α) {n : ℕ} (h : n < l.length) :
    l.take (n + 1) = l.take n ++ [l.getD n d] := by
  induction l generalizing n with
  | nil => simp at h
  | cons r c ih =>
    cases n with
    | zero => simp
    | succ n2 =>
      have := ih (n := n2) (by simpa using h)
      simpa using this

theorem getD_cons_drop {α : Type} (l : List α) (d : α) {n : ℕ} (h : n < l.length) :
    l.getD n d :: l.drop (n + 1) = l.drop n := by
  induction l generalizing n with
  | nil => simp at h
  | cons r c ih =>
    cases n with
    | zero => simp
    | succ n2 =>
      have := ih (n := n2) (by simpa using h)
      simpa using this

theorem drop_set_cons {α : Type} (l : List α) (a : α) {n : ℕ} (h : n < l.length) :
    (l.set n a).drop n = a :: l.drop (n + 1) := by
  induction l generalizing n with
  | nil => simp at h
  | cons r c ih =>
    cases n with
    | zero => simp
    | succ n2 =>
      have := ih (n := n2) (by simpa using h)
      simpa using this

theorem take_set_of_le {α : Type} (l : List α) (a : α) {n m : ℕ} (h : n ≤ m) :
    (l.set m a).take n = l.take n := by
  induction l generalizing n m with
  | nil => simp
  | cons r c ih =>
    cases n with
    | zero => simp
    | succ n2 =>
      obtain ⟨m2, rfl⟩ : ∃ m2, m = m2 + 1 := ⟨m - 1, by omega⟩
      simpa using ih (by omega)

theorem V1.clearAux_spec : ∀ (b : Board) (y : ℕ), y < b.length →
    (∀ i, y < i → rowFull (b.getD i []) = false) →
    V1.clearAux b y =
      (List.replicate ((b.take (y + 1)).countP rowFull) emptyRow
         ++ (b.take (y + 1)).filter (fun r => !rowFull r) ++ b.drop (y + 1),
       (b.take (y + 1)).countP rowFull) := by
  intro b y
  induction b, y using V1.clearAux.induct with
  | case1 b y hfull ih =>
    intro hlen habove
    have hfull2 : rowFull (b[y]?.getD []) = true := by simpa using hfull
    have he : (b.eraseIdx y).length = b.length - 1 := by
      rw [List.length_eraseIdx]; simp [hlen]
    have hlen2 : y < (emptyRow :: b.eraseIdx y).length := by
      simp [he]; omega
    have habove2 : ∀ i, y < i → rowFull ((emptyRow :: b.eraseIdx y).getD i []) = false := by
      intro i hi
      obtain ⟨i2, rfl⟩ : ∃ i2, i = i2 + 1 := ⟨i - 1, by omega⟩
      rw [List.getD_cons_succ, getD_eraseIdx_ge b [] (by omega)]
      exact habove (i2 + 1) (by omega)
    have hrec := ih hlen2 habove2
    have htake : (emptyRow :: b.eraseIdx y).take (y + 1) = emptyRow :: b.take y := by
      rw [List.take_succ_cons, take_eraseIdx_self]
    have hdrop : (emptyRow :: b.eraseIdx y).drop (y + 1) = b.drop (y + 1) := by
      rw [List.drop_succ_cons, drop_eraseIdx_self]
    have hsplit : b.take (y + 1) = b.take y ++ [b.getD y []] := take_succ_getD b [] hlen
    have hcount : (b.take (y + 1)).countP rowFull
        = ((emptyRow :: b.eraseIdx y).take (y + 1)).countP rowFull + 1 := by
      rw [htake, hsplit]
      simp [List.countP_append, List.countP_cons, rowFull_emptyRow, hfull, hfull2]
    have hfilter : (b.take (y + 1)).filter (fun r => !rowFull r)
        = (b.take y).filter (fun r => !rowFull r) := by
      rw [hsplit, List.filter_append]
      simp [hfull, hfull2]
    rw [V1.clearAux, dif_pos hfull]
    simp only [hrec]
    rw [Prod.mk.injEq]
    constructor
    · rw [htake, hdrop, hcount, hfilter]
      rw [List.filter_cons_of_pos (by simp [rowFull_emptyRow])]
      rw [List.replicate_succ']
      simp only [List.append_assoc, List.cons_append, List.nil_append]
      rw [htake]
    · omega
  | case2 b hfull =>
    intro hlen habove
    rw [Bool.not_eq_true] at hfull
    have hfull2 : rowFull (b[0]?.getD []) = false := by simpa using hfull
    have hsplit : b.take 1 = [b.getD 0 []] := take_succ_getD b [] hlen
    rw [V1.clearAux, dif_neg (by rw [hfull]; simp)]
    rw [Prod.mk.injEq]
    constructor
    · rw [hsplit]
      rw [List.filter_cons_of_pos (by simp [hfull, hfull2])]
      simp only [List.countP_cons, hfull]
      simp only [List.countP_nil, List.filter_nil]
      simp only [hfull2, Bool.false_eq_true, if_false, Nat.add_zero, List.replicate,
        List.nil_append, List.cons_append]
      rcases b with _ | ⟨r, c⟩
      · simp at hlen
      · simp
    · rw [hsplit]
      simp [List.countP_cons, hfull, hfull2]
  | case3 b y2 hfull hfullb ih =>
    intro hlen habove
    rw [Bool.not_eq_true] at hfull
    have hfull2 : rowFull (b[y2 + 1]?.getD []) = false := by simpa using hfull
    have habove2 : ∀ i, y2 < i → rowFull (b.getD i []) = false := by
      intro i hi
      by_cases hiy : i = y2 + 1
      · rw [hiy]; exact hfull
      · exact habove i (by omega)
    have hrec := ih (by omega) habove2
    have hsplit : b.take (y2 + 1 + 1) = b.take (y2 + 1) ++ [b.getD (y2 + 1) []] :=
      take_succ_getD b [] hlen
    rw [V1.clearAux, dif_neg (by rw [hfull]; simp)]
    simp only [hrec]
    rw [Prod.mk.injEq]
    constructor
    · rw [hsplit, List.filter_append, List.countP_append]
      rw [List.filter_cons_of_pos (by simp [hfull, hfull2])]
      simp only [List.countP_cons, hfull, hfull2, List.countP_nil, List.filter_nil]
      rw [← getD_cons_drop b [] hlen]
      simp
    · rw [hsplit, List.countP_append]
      simp [List.countP_cons, hfull, hfull2]

theorem V1.game_clear_lines_spec (g : V1.Game) (hb : g.board.length = 20) :
    V1.game_clear_lines g =
      (g.board.countP rowFull,
       { g with board := List.replicate (g.board.countP rowFull) emptyRow
           ++ g.board.filter (fun r => !rowFull r) }) := by
  unfold V1.game_clear_lines
  have h1 := V1.clearAux_spec g.board 19 (by omega)
    (fun i hi => by
      rw [List.getD_eq_default]
      · decide
      · omega)
  have h20 : (19 : ℕ) + 1 = 20 := by norm_num
  rw [h20] at h1
  have ht : g.board.take 20 = g.board := List.take_of_length_le (by omega)
  have hd : g.board.drop 20 = [] := List.drop_eq_nil_of_le (by omega)
  rw [ht, hd, List.append_nil] at h1
  rw [h1]

theorem countP_add_filter_length (b : Board) :
    b.countP rowFull + (b.filter (fun r => !rowFull r)).length = b.length := by
  induction b with
  | nil => simp
  | cons r c ih =>
    by_cases h : rowFull r = true
    · simp only [List.countP_cons, List.filter_cons, h]
      simp
      omega
    · rw [Bool.not_eq_true] at h
      simp only [List.countP_cons, List.filter_cons, h]
      simp
      omega

theorem clearedBoard_length (b : Board) (hb : b.length = 20) :
    (List.replicate (b.countP rowFull) emptyRow
      ++ b.filter (fun r => !rowFull r)).length = 20 := by
  rw [List.length_append, List.length_replicate]
  rw [countP_add_filter_length]
  exact hb

theorem clearedBoard_no_full (b : Board) :
    ∀ r ∈ List.replicate (b.countP rowFull) emptyRow ++ b.filter (fun r => !rowFull r),
      rowFull r = false := by
  intro r hr
  rcases List.mem_append.mp hr with h | h
  · rw [List.eq_of_mem_replicate h]
    exact rowFull_emptyRow
  · have := (List.mem_filter.mp h).2
    rwa [Bool.not_eq_true'] at this

theorem clearedBoard_countP (b : Board) :
    (List.replicate (b.countP rowFull) emptyRow
      ++ b.filter (fun r => !rowFull r)).countP rowFull = 0 :=
  List.countP_eq_zero.mpr (fun r hr => by
    rw [clearedBoard_no_full b r hr]; simp)

theorem clearedBoard_filter (b : Board) :
    (List.replicate (b.countP rowFull) emptyRow
        ++ b.filter (fun r => !rowFull r)).filter (fun r => !rowFull r)
      = List.replicate (b.countP rowFull) emptyRow ++ b.filter (fun r => !rowFull r) :=
  List.filter_eq_self.mpr (fun r hr => by
    rw [clearedBoard_no_full b r hr]; simp)

theorem V2.copyAux_spec : ∀ (n : ℕ) (b : Board) (c : ℕ),
    b.length = 20 → n + c ≤ 20 →
    (V2.copyAux b n ((n : ℤ) + (c : ℤ) - 1) c).2.2 = c + (b.take n).countP rowFull ∧
    (V2.copyAux b n ((n : ℤ) + (c : ℤ) - 1) c).2.1
      = ((c + (b.take n).countP rowFull : ℕ) : ℤ) - 1 ∧
    (V2.copyAux b n ((n : ℤ) + (c : ℤ) - 1) c).1.length = 20 ∧
    (V2.copyAux b n ((n : ℤ) + (c : ℤ) - 1) c).1.drop (c + (b.take n).countP rowFull)
      = (b.take n).filter (fun r => !rowFull r) ++ b.drop (n + c) := by
  intro n
  induction n with
  | zero =>
    intro b c hb hc
    simp [V2.copyAux, hb]
  | succ n ih =>
    intro b c hb hc
    have hn20 : n < b.length := by omega
    have hsplit : b.take (n + 1) = b.take n ++ [b.getD n []] := take_succ_getD b [] hn20
    have hstep : V2.copyAux b (n + 1) (((n + 1 : ℕ) : ℤ) + (c : ℤ) - 1) c
        = if rowFull (b.getD n []) = true
          then V2.copyAux b n (((n + 1 : ℕ) : ℤ) + (c : ℤ) - 1) (c + 1)
          else
            (let b2 := if (((n + 1 : ℕ) : ℤ) + (c : ℤ) - 1) ≠ (n : ℤ)
               then b.set ((((n + 1 : ℕ) : ℤ) + (c : ℤ) - 1)).toNat (b.getD n []) else b
             V2.copyAux b2 n ((((n + 1 : ℕ) : ℤ) + (c : ℤ) - 1) - 1) c) := rfl
    by_cases hf : rowFull (b.getD n []) = true
    · have hf2 : rowFull (b[n]?.getD []) = true := by simpa using hf
      have hw : ((n + 1 : ℕ) : ℤ) + (c : ℤ) - 1 = (n : ℤ) + ((c + 1 : ℕ) : ℤ) - 1 := by
        push_cast; ring
      have hbody : V2.copyAux b (n + 1) (((n + 1 : ℕ) : ℤ) + (c : ℤ) - 1) c
          = V2.copyAux b n ((n : ℤ) + ((c + 1 : ℕ) : ℤ) - 1) (c + 1) := by
        rw [hstep, if_pos hf, hw]
      obtain ⟨ih1, ih2, ih3, ih4⟩ := ih b (c + 1) hb (by omega)
      have hcnt : (c + 1) + (b.take n).countP rowFull
          = c + (b.take (n + 1)).countP rowFull := by
        rw [hsplit, List.countP_append]
        simp [List.countP_cons, hf, hf2]
        omega
      refine ⟨?_, ?_, ?_, ?_⟩
      · rw [hbody, ih1, hcnt]
      · rw [hbody, ih2, hcnt]
      · rw [hbody]; exact ih3
      · rw [hbody, ← hcnt, ih4, hsplit, List.filter_append]
        have hff : List.filter (fun r => !rowFull r) [b.getD n []] = [] := by
          simp [hf, hf2]
        rw [hff, List.append_nil]
        have : n + (c + 1) = n + 1 + c := by omega
        rw [this]
    · rw [Bool.not_eq_true] at hf
      have hf2 : rowFull (b[n]?.getD []) = false := by simpa using hf
      have hcnt : (b.take (n + 1)).countP rowFull = (b.take n).countP rowFull := by
        rw [hsplit, List.countP_append]
        simp [List.countP_cons, hf, hf2]
      have hfil : (b.take (n + 1)).filter (fun r => !rowFull r)
          = (b.take n).filter (fun r => !rowFull r) ++ [b.getD n []] := by
        rw [hsplit, List.filter_append]
        simp [hf, hf2]
      by_cases hc0 : c = 0
      · subst hc0
        have hbody : V2.copyAux b (n + 1) (((n + 1 : ℕ) : ℤ) + ((0 : ℕ) : ℤ) - 1) 0
            = V2.copyAux b n ((n : ℤ) + ((0 : ℕ) : ℤ) - 1) 0 := by
          rw [hstep, if_neg (by rw [hf]; simp)]
          show V2.copyAux
              (if (((n + 1 : ℕ) : ℤ) + ((0 : ℕ) : ℤ) - 1) ≠ (n : ℤ)
               then b.set ((((n + 1 : ℕ) : ℤ) + ((0 : ℕ) : ℤ) - 1)).toNat (b.getD n []) else b)
              n ((((n + 1 : ℕ) : ℤ) + ((0 : ℕ) : ℤ) - 1) - 1) 0 = _
          rw [if_neg (by omega)]
          have heq : (((n + 1 : ℕ) : ℤ) + ((0 : ℕ) : ℤ) - 1) - 1
              = (n : ℤ) + ((0 : ℕ) : ℤ) - 1 := by push_cast; ring
          rw [heq]
        obtain ⟨ih1, ih2, ih3, ih4⟩ := ih b 0 hb (by omega)
        refine ⟨?_, ?_, ?_, ?_⟩
        · rw [hbody, ih1, hcnt]
        · rw [hbody, ih2, hcnt]
        · rw [hbody]; exact ih3
        · rw [hbody, hcnt, ih4, hfil]
          have hdr : b.drop (n + 0) = b.getD n [] :: b.drop (n + 1) := by
            rw [Nat.add_zero, ← getD_cons_drop b [] hn20]
          rw [hdr]
          have : n + 1 + 0 = n + 1 := by omega
          rw [this]
          simp [List.append_assoc]
      · have hb2 : (b.set (n + c) (b.getD n [])).length = 20 := by
          rw [List.length_set]; exact hb
        have hnc20 : n + c < b.length := by omega
        have hbody : V2.copyAux b (n + 1) (((n + 1 : ℕ) : ℤ) + (c : ℤ) - 1) c
            = V2.copyAux (b.set (n + c) (b.getD n [])) n ((n : ℤ) + (c : ℤ) - 1) c := by
          rw [hstep, if_neg (by rw [hf]; simp)]
          show V2.copyAux
              (if (((n + 1 : ℕ) : ℤ) + (c : ℤ) - 1) ≠ (n : ℤ)
               then b.set ((((n + 1 : ℕ) : ℤ) + (c : ℤ) - 1)).toNat (b.getD n []) else b)
              n ((((n + 1 : ℕ) : ℤ) + (c : ℤ) - 1) - 1) c = _
          rw [if_pos (by omega)]
          have h1 : (((n + 1 : ℕ) : ℤ) + (c : ℤ) - 1).toNat = n + c := by omega
          have h2 : (((n + 1 : ℕ) : ℤ) + (c : ℤ) - 1) - 1 = (n : ℤ) + (c : ℤ) - 1 := by
            push_cast; ring
          rw [h1, h2]
        have htk : (b.set (n + c) (b.getD n [])).take n = b.take n :=
          take_set_of_le b (b.getD n []) (by omega)
        obtain ⟨ih1, ih2, ih3, ih4⟩ := ih (b.set (n + c) (b.getD n [])) c hb2 (by omega)
        rw [htk] at ih1 ih2 ih4
        refine ⟨?_, ?_, ?_, ?_⟩
        · rw [hbody, ih1, hcnt]
        · rw [hbody, ih2, hcnt]
        · rw [hbody]; exact ih3
        · rw [hbody, hcnt, ih4, hfil]
          have hdr : (b.set (n + c) (b.getD n [])).drop (n + c)
              = b.getD n [] :: b.drop (n + c + 1) :=
            drop_set_cons b (b.getD n []) hnc20
          rw [hdr]
          have : n + 1 + c = n + c + 1 := by omega
          rw [this]
          simp [List.append_assoc]

theorem V2.zeroRows_spec : ∀ (n : ℕ) (b : Board), n ≤ b.length →
    V2.zeroRows b n = List.replicate n emptyRow ++ b.drop n := by
  intro n
  induction n with
  | zero => intro b h; simp [V2.zeroRows]
  | succ n ih =>
    intro b h
    have hn : n < b.length := by omega
    show V2.zeroRows (b.set n emptyRow) n = _
    rw [ih (b.set n emptyRow) (by rw [List.length_set]; omega)]
    rw [drop_set_cons b emptyRow hn]
    rw [List.replicate_succ']
    simp [List.append_assoc]

theorem V2.clear_lines_result (g : V2.GameState) (hb : g.board.length = 20) :
    V2.game_clear_lines g =
      (if 0 < g.board.countP rowFull then
        (g.board.countP rowFull,
         { g with
             board := List.replicate (g.board.countP rowFull) emptyRow
               ++ g.board.filter (fun r => !rowFull r),
             lines := g.lines + g.board.countP rowFull,
             score := g.score + V2.game_calculate_score (g.board.countP rowFull) g.level,
             level := (g.lines + g.board.countP rowFull) / 10 + 1 })
      else
        (g.board.countP rowFull,
         { g with board := List.replicate (g.board.countP rowFull) emptyRow
             ++ g.board.filter (fun r => !rowFull r) })) := by
  have hspec := V2.copyAux_spec 20 g.board 0 hb (by omega)
  have hcast : ((20 : ℕ) : ℤ) + ((0 : ℕ) : ℤ) - 1 = (19 : ℤ) := by norm_num
  rw [hcast] at hspec
  obtain ⟨h1, h2, h3, h4⟩ := hspec
  have ht : g.board.take 20 = g.board := List.take_of_length_le (by omega)
  rw [ht] at h1 h2 h4
  simp only [Nat.zero_add, Nat.add_zero] at h1 h2 h4
  have hd : g.board.drop 20 = [] := List.drop_eq_nil_of_le (by omega)
  rw [hd, List.append_nil] at h4
  simp only [V2.game_clear_lines]
  rw [h1, h2]
  have hz : (((g.board.countP rowFull : ℕ) : ℤ) - 1 + 1).toNat = g.board.countP rowFull := by
    omega
  rw [hz]
  have hcle : g.board.countP rowFull ≤ (V2.copyAux g.board 20 19 0).1.length := by
    rw [h3, ← hb]
    exact List.countP_le_length _
  rw [V2.zeroRows_spec _ _ hcle, h4]

theorem getD_append_offset {α : Type} : ∀ (l1 l2 : List α) (m : ℕ) (d : α),
    (l1 ++ l2).getD (l1.length + m) d = l2.getD m d := by
  intro l1
  induction l1 with
  | nil => intro l2 m d; simp
  | cons r t ih =>
    intro l2 m d
    have hidx : (r :: t).length + m = (t.length + m) + 1 := by
      simp; omega
    rw [hidx, List.cons_append, List.getD_cons_succ]
    exact ih l2 m d

theorem filter_getD_position {α : Type} (p : α → Bool) (d : α) :
    ∀ (l : List α) (i : ℕ), i < l.length → p (l.getD i d) = true →
    (l.filter p).getD ((l.take i).countP p) d = l.getD i d := by
  intro l
  induction l with
  | nil => intro i hi; simp at hi
  | cons r t ih =>
    intro i hi hp
    cases i with
    | zero =>
      simp only [List.getD_cons_zero] at hp ⊢
      rw [List.filter_cons_of_pos hp]
      simp
    | succ i2 =>
      rw [List.getD_cons_succ] at hp ⊢
      have hi2 : i2 < t.length := by simpa using hi
      by_cases hr : p r = true
      · rw [List.filter_cons_of_pos hr]
        have hcnt : ((r :: t).take (i2 + 1)).countP p = (t.take i2).countP p + 1 := by
          rw [List.take_succ_cons, List.countP_cons, hr]
          simp
        rw [hcnt, List.getD_cons_succ]
        exact ih i2 hi2 hp
      · rw [List.filter_cons_of_neg (by simp [hr])]
        have hcnt : ((r :: t).take (i2 + 1)).countP p = (t.take i2).countP p := by
          rw [List.take_succ_cons, List.countP_cons]
          simp [hr]
        rw [hcnt]
        exact ih i2 hi2 hp

theorem countP_not_rowFull (l : Board) :
    l.countP rowFull + l.countP (fun r => !rowFull r) = l.length := by
  have h := countP_add_filter_length l
  rw [← List.countP_eq_length_filter] at h
  exact h

theorem clearedBoard_shift (b : Board) (hb : b.length = 20) (i : ℕ) (hi : i < 20)
    (hkeep : rowFull (b.getD i []) = false) :
    (List.replicate (b.countP rowFull) emptyRow
        ++ b.filter (fun r => !rowFull r)).getD (i + (b.drop (i + 1)).countP rowFull) []
      = b.getD i [] := by
  have hkc : (b.take i).countP rowFull + (b.take i).countP (fun r => !rowFull r) = i := by
    have := countP_not_rowFull (b.take i)
    rwa [List.length_take, min_eq_left (by omega)] at this
  have hkeep2 : rowFull (b[i]?.getD []) = false := by simpa using hkeep
  have hk : b.countP rowFull
      = (b.take i).countP rowFull + (b.drop (i + 1)).countP rowFull := by
    conv_lhs => rw [← List.take_append_drop (i + 1) b]
    rw [List.countP_append, take_succ_getD b [] (by omega), List.countP_append]
    have hone : List.countP rowFull [b.getD i []] = 0 := by
      simp [List.countP_cons, hkeep, hkeep2]
    rw [hone]
    omega
  have hidx : i + (b.drop (i + 1)).countP rowFull
      = b.countP rowFull + (b.take i).countP (fun r => !rowFull r) := by omega
  rw [hidx]
  have happ := getD_append_offset (List.replicate (b.countP rowFull) emptyRow)
    (b.filter (fun r => !rowFull r)) ((b.take i).countP (fun r => !rowFull r)) ([] : Row)
  rw [List.length_replicate] at happ
  rw [happ]
  exact filter_getD_position (fun r => !rowFull r) [] b i (by omega) (by simp [hkeep, hkeep2])

/-- A fully occupied row, used by the concrete clear-lines test. -/
def fullRow : Row := List.replicate 10 1

/-- Row 18 of the concrete clear-lines test: a single marked cell
(value 3) at column 5. -/
def markedRow : Row := [0, 0, 0, 0, 0, 3, 0, 0, 0, 0]

/-- A V1 state whose board has rows 17 and 19 full and a single marked
cell at row 18, column 5 (non-contiguous full rows). -/
def gC4 : V1.Game :=
  { board := List.replicate 17 emptyRow ++ [fullRow, markedRow, fullRow]
    current_piece := ⟨0, 0, 3, 0⟩
    next_piece := ⟨0, 0, 3, 0⟩
    score := 0
    level := 1
    lines_cleared := 0
    speed_ms := 1000
    state := V1.GState.playing
    running := true }

/-- The V2 analog of `gC4`. -/
def gC4b : V2.GameState :=
  { board := List.replicate 17 emptyRow ++ [fullRow, markedRow, fullRow]
    current := ⟨0, 0, 3, 0⟩
    next := V2.tetromino_create 0
    score := 0
    level := 1
    lines := 0
    is_running := true
    is_paused := false }

/-- C4: both `game_clear_lines` implementations remove exactly the full
rows, keep the remaining rows in order at the bottom (each remaining row
moves down by the number of cleared rows below it), fill the freed top
rows with empty cells, and return the number of cleared rows; on the
board with rows 17 and 19 full and a mark at (18,5), both clear 2 rows
and leave the mark at (19,5). -/
theorem c4_clear_full_rows :
    (∀ g : V1.Game, g.board.length = 20 →
        V1.game_clear_lines g = (g.board.countP rowFull,
          { g with board := List.replicate (g.board.countP rowFull) emptyRow
              ++ g.board.filter (fun r => !rowFull r) })) ∧
    (∀ g : V2.GameState, g.board.length = 20 →
        (V2.game_clear_lines g).1 = g.board.countP rowFull ∧
        (V2.game_clear_lines g).2.board
          = List.replicate (g.board.countP rowFull) emptyRow
              ++ g.board.filter (fun r => !rowFull r)) ∧
    (∀ b : Board, b.length = 20 → ∀ i, i < 20 → rowFull (b.getD i []) = false →
        (List.replicate (b.countP rowFull) emptyRow
            ++ b.filter (fun r => !rowFull r)).getD (i + (b.drop (i + 1)).countP rowFull) []
          = b.getD i []) ∧
    ((V1.game_clear_lines gC4).1 = 2 ∧
      boardCell (V1.game_clear_lines gC4).2.board 19 5 = 3 ∧
      (V2.game_clear_lines gC4b).1 = 2 ∧
      boardCell (V2.game_clear_lines gC4b).2.board 19 5 = 3) := by
  have hv2 : ∀ g : V2.GameState, g.board.length = 20 →
      (V2.game_clear_lines g).1 = g.board.countP rowFull ∧
      (V2.game_clear_lines g).2.board
        = List.replicate (g.board.countP rowFull) emptyRow
            ++ g.board.filter (fun r => !rowFull r) := by
    intro g hb
    rw [V2.clear_lines_result g hb]
    split_ifs <;> exact ⟨rfl, rfl⟩
  refine ⟨fun g hb => V1.game_clear_lines_spec g hb, hv2, clearedBoard_shift, ?_, ?_, ?_, ?_⟩
  · rw [V1.game_clear_lines_spec gC4 (by decide)]
    decide
  · rw [V1.game_clear_lines_spec gC4 (by decide)]
    decide
  · rw [(hv2 gC4b (by decide)).1]
    decide
  · rw [(hv2 gC4b (by decide)).2]
    decide

/-- C4 witness: the general V1 characterization applied at the concrete
board `gC4`. -/
theorem c4_clear_full_rows_witness :
    gC4.board.length = 20 ∧
    V1.game_clear_lines gC4 = (gC4.board.countP rowFull,
      { gC4 with board := List.replicate (gC4.board.countP rowFull) emptyRow
          ++ gC4.board.filter (fun r => !rowFull r) }) :=
  ⟨by decide, c4_clear_full_rows.1 gC4 (by decide)⟩

/-- C9: after one `game_clear_lines` call the board has no full row, so
an immediate second call returns 0 and leaves the state unchanged, in
both implementations. -/
theorem c9_clear_idempotent :
    (∀ g : V1.Game, g.board.length = 20 →
        (∀ r ∈ (V1.game_clear_lines g).2.board, rowFull r = false) ∧
        V1.game_clear_lines (V1.game_clear_lines g).2 = (0, (V1.game_clear_lines g).2)) ∧
    (∀ g : V2.GameState, g.board.length = 20 →
        (∀ r ∈ (V2.game_clear_lines g).2.board, rowFull r = false) ∧
        V2.game_clear_lines (V2.game_clear_lines g).2 = (0, (V2.game_clear_lines g).2)) := by
  constructor
  · intro g hb
    have hspec := V1.game_clear_lines_spec g hb
    have hb2 : (V1.game_clear_lines g).2.board
        = List.replicate (g.board.countP rowFull) emptyRow
            ++ g.board.filter (fun r => !rowFull r) := by rw [hspec]
    constructor
    · intro r hr
      rw [hb2] at hr
      exact clearedBoard_no_full g.board r hr
    · have hlen2 : (V1.game_clear_lines g).2.board.length = 20 := by
        rw [hb2]; exact clearedBoard_length g.board hb
      rw [V1.game_clear_lines_spec _ hlen2]
      rw [hb2, clearedBoard_countP, clearedBoard_filter]
      simp only [List.replicate, List.nil_append, Prod.mk.injEq]
      refine ⟨by trivial, ?_⟩
      rw [← hb2]
  · intro g hb
    have hspec := V2.clear_lines_result g hb
    have hb2 : (V2.game_clear_lines g).2.board
        = List.replicate (g.board.countP rowFull) emptyRow
            ++ g.board.filter (fun r => !rowFull r) := by
      rw [hspec]; split_ifs <;> rfl
    constructor
    · intro r hr
      rw [hb2] at hr
      exact clearedBoard_no_full g.board r hr
    · have hlen2 : (V2.game_clear_lines g).2.board.length = 20 := by
        rw [hb2]; exact clearedBoard_length g.board hb
      rw [V2.clear_lines_result _ hlen2]
      rw [hb2, clearedBoard_countP, clearedBoard_filter]
      simp only [lt_self_iff_false, if_false, List.replicate, List.nil_append, Prod.mk.injEq]
      refine ⟨by trivial, ?_⟩
      rw [← hb2]

/-- C9 witness: idempotence applied at the concrete state `gC4`: the
second clear finds no full rows and changes nothing. -/
theorem c9_clear_idempotent_witness :
    gC4.board.length = 20 ∧
    V1.game_clear_lines (V1.game_clear_lines gC4).2 = (0, (V1.game_clear_lines gC4).2) :=
  ⟨by decide, (c9_clear_idempotent.1 gC4 (by decide)).2⟩

theorem V1.game_update_lock_stats (g : V1.Game) (r : ℕ)
    (hrun : g.running = true) (hstate : g.state = V1.GState.playing)
    (hmv : (V1.game_move_piece g 0 1).1 = false) :
    (V1.game_update g r).2.score
      = g.score + V1.game_calculate_score (V1.game_clear_lines (V1.game_lock_piece g)).1 ∧
    (V1.game_update g r).2.lines_cleared
      = g.lines_cleared + (V1.game_clear_lines (V1.game_lock_piece g)).1 := by
  have hlock_score : (V1.game_lock_piece g).score = g.score := by
    unfold V1.game_lock_piece
    cases V1.tetromino_get_shape g.current_piece.type g.current_piece.rotation <;> rfl
  have hlock_lines : (V1.game_lock_piece g).lines_cleared = g.lines_cleared := by
    unfold V1.game_lock_piece
    cases V1.tetromino_get_shape g.current_piece.type g.current_piece.rotation <;> rfl
  have hspawn : ∀ (g2 : V1.Game) (r2 : ℕ),
      (V1.game_spawn_piece g2 r2).2.score = g2.score ∧
      (V1.game_spawn_piece g2 r2).2.lines_cleared = g2.lines_cleared := by
    intro g2 r2
    simp only [V1.game_spawn_piece]
    split_ifs <;> exact ⟨rfl, rfl⟩
  simp only [V1.game_update]
  rw [hrun, hstate, hmv]
  rw [if_neg (by simp), if_neg (by simp), if_neg (by simp)]
  set cl := V1.game_clear_lines (V1.game_lock_piece g) with hcldef
  set G2 := if 0 < cl.1 then
      V1.game_update_level
        { cl.2 with score := cl.2.score + V1.game_calculate_score cl.1,
                    lines_cleared := cl.2.lines_cleared + cl.1 }
    else cl.2 with hg2def
  have hfin : (if (V1.game_spawn_piece G2 r).1 = true then (true, (V1.game_spawn_piece G2 r).2)
      else (false, { (V1.game_spawn_piece G2 r).2 with state := V1.GState.game_over })).2.score
        = G2.score ∧
      (if (V1.game_spawn_piece G2 r).1 = true then (true, (V1.game_spawn_piece G2 r).2)
      else (false, { (V1.game_spawn_piece G2 r).2 with state := V1.GState.game_over })).2.lines_cleared
        = G2.lines_cleared := by
    split_ifs
    · exact hspawn G2 r
    · exact hspawn G2 r
  rw [hfin.1, hfin.2]
  have hclsc : cl.2.score = g.score := by
    rw [show cl.2.score = (V1.game_lock_piece g).score from rfl, hlock_score]
  have hcllc : cl.2.lines_cleared = g.lines_cleared := by
    rw [show cl.2.lines_cleared = (V1.game_lock_piece g).lines_cleared from rfl, hlock_lines]
  by_cases hcl : 0 < cl.1
  · rw [hg2def, if_pos hcl]
    constructor
    · show cl.2.score + V1.game_calculate_score cl.1 = _
      rw [hclsc]
    · show cl.2.lines_cleared + cl.1 = _
      rw [hcllc]
  · rw [hg2def, if_neg hcl]
    have h0 : cl.1 = 0 := by omega
    rw [hclsc, hcllc, h0]
    constructor
    · simp [V1.game_calculate_score]
    · simp

/-- A V1 state at level 3 (25 lines cleared) with an O piece resting on
the floor whose lock completes exactly row 19. -/
def gC2 : V1.Game :=
  { board := List.replicate 19 emptyRow ++ [[1, 1, 1, 1, 0, 0, 1, 1, 1, 1]]
    current_piece := ⟨1, 0, 3, 18⟩
    next_piece := ⟨0, 0, 3, 0⟩
    score := 0
    level := 3
    lines_cleared := 25
    speed_ms := 900
    state := V1.GState.playing
    running := true }

/-- C2: the spec claims a lock clearing k rows at level L adds
table(k) times L.  The V1 tick (`game_update` of src/game.c) does not
multiply by the level: locking the O piece of `gC2` clears one row at
level 3 and adds 100 points, not the 300 the claim requires. -/
theorem c2_level_multiplier_counterexample :
    gC2.level = 3 ∧
    (V1.game_update gC2 0).2.lines_cleared = gC2.lines_cleared + 1 ∧
    (V1.game_update gC2 0).2.score = gC2.score + 100 ∧
    gC2.score + 100 ≠ gC2.score + 100 * gC2.level := by
  have hstats := V1.game_update_lock_stats gC2 0 rfl rfl (by decide)
  have hk : (V1.game_clear_lines (V1.game_lock_piece gC2)).1 = 1 := by
    rw [V1.game_clear_lines_spec _ (by decide)]
    decide
  refine ⟨rfl, ?_, ?_, by decide⟩
  · rw [hstats.2, hk]
  · rw [hstats.1, hk]
    rfl

/-- C2 (amended): on a blocked tick the V1 engine adds the base table
value `game_calculate_score(cleared)` with no level factor (and adds the
cleared count to the line counter), while the V2 scoring function
multiplies the same base table by the level. -/
theorem c2_lock_scoring :
    (∀ (g : V1.Game) (r : ℕ), g.running = true → g.state = V1.GState.playing →
        (V1.game_move_piece g 0 1).1 = false →
        (V1.game_update g r).2.score
          = g.score + V1.game_calculate_score (V1.game_clear_lines (V1.game_lock_piece g)).1 ∧
        (V1.game_update g r).2.lines_cleared
          = g.lines_cleared + (V1.game_clear_lines (V1.game_lock_piece g)).1) ∧
    (∀ k, V1.game_calculate_score k = scoreTable k) ∧
    (∀ k l, V2.game_calculate_score k l = scoreTable k * l) := by
  refine ⟨V1.game_update_lock_stats, ?_, ?_⟩
  · intro k
    match k with
    | 0 => rfl
    | 1 => rfl
    | 2 => rfl
    | 3 => rfl
    | 4 => rfl
    | n + 5 => rfl
  · intro k l
    match k with
    | 0 => simp [V2.game_calculate_score, scoreTable]
    | 1 => rfl
    | 2 => rfl
    | 3 => rfl
    | 4 => rfl
    | n + 5 => simp [V2.game_calculate_score, scoreTable]

/-- The current piece of `g` moved `k` rows down. -/
def V1.pieceAt (g : V1.Game) (k : ℕ) : Tetromino :=
  { g.current_piece with y := g.current_piece.y + (k : ℤ) }

theorem V1.game_hard_drop_aux_eq (g : V1.Game) :
    V1.game_hard_drop_aux g =
      if (V1.game_move_piece g 0 1).1 = true
      then ((V1.game_hard_drop_aux (V1.game_move_piece g 0 1).2).1 + 1,
            (V1.game_hard_drop_aux (V1.game_move_piece g 0 1).2).2)
      else (0, g) := by
  rw [V1.game_hard_drop_aux]
  show (if h : (V1.game_move_piece g 0 1).1 = true
      then ((V1.game_hard_drop_aux (V1.game_move_piece g 0 1).2).1 + 1,
            (V1.game_hard_drop_aux (V1.game_move_piece g 0 1).2).2)
      else (0, g)) = _
  split_ifs with h
  · rfl
  · rfl

theorem V1.down_candidate (g : V1.Game) :
    ({ g.current_piece with x := g.current_piece.x + 0, y := g.current_piece.y + 1 } : Tetromino)
      = V1.pieceAt g 1 := by
  simp only [V1.pieceAt]
  rw [Tetromino.mk.injEq]
  exact ⟨rfl, rfl, by ring, by push_cast; ring⟩

theorem V1.game_hard_drop_aux_state (g : V1.Game) :
    (V1.game_hard_drop_aux g).2
      = { g with current_piece := V1.pieceAt g (V1.game_hard_drop_aux g).1 } := by
  induction g using V1.game_hard_drop_aux.induct with
  | case1 g p hmv ih =>
    have hp : p = V1.game_move_piece g 0 1 := rfl
    rw [hp] at hmv ih
    rw [V1.game_hard_drop_aux_eq, if_pos hmv]
    rcases V1.game_move_piece_cases g 0 1 with ⟨hcoll, heq⟩ | ⟨hcoll, heq⟩
    · simp only [heq] at ih ⊢
      rw [ih]
      simp only [V1.pieceAt]
      rw [V1.Game.mk.injEq]
      refine ⟨rfl, ?_, rfl, rfl, rfl, rfl, rfl, rfl, rfl⟩
      rw [Tetromino.mk.injEq]
      exact ⟨rfl, rfl, by ring, by push_cast; ring⟩
    · rw [heq] at hmv
      exact absurd hmv (by simp)
  | case2 g p hmv =>
    have hp : p = V1.game_move_piece g 0 1 := rfl
    rw [hp] at hmv
    rw [V1.game_hard_drop_aux_eq, if_neg hmv]
    simp [V1.pieceAt]

theorem V1.game_hard_drop_aux_least (g : V1.Game) :
    (∀ k, k < (V1.game_hard_drop_aux g).1 →
      V1.tetromino_check_collision (V1.pieceAt g (k + 1)) g.board = false) ∧
    V1.tetromino_check_collision (V1.pieceAt g ((V1.game_hard_drop_aux g).1 + 1)) g.board
      = true := by
  induction g using V1.game_hard_drop_aux.induct with
  | case1 g p hmv ih =>
    have hp : p = V1.game_move_piece g 0 1 := rfl
    rw [hp] at hmv ih
    rcases V1.game_move_piece_cases g 0 1 with ⟨hcoll, heq⟩ | ⟨hcoll, heq⟩
    · rw [V1.game_hard_drop_aux_eq, if_pos hmv]
      have hconv : ∀ m : ℕ,
          V1.pieceAt { g with current_piece := { g.current_piece with x := g.current_piece.x + 0, y := g.current_piece.y + 1 } } m
            = V1.pieceAt g (m + 1) := by
        intro m
        simp only [V1.pieceAt]
        rw [Tetromino.mk.injEq]
        refine ⟨rfl, rfl, by ring, ?_⟩
        push_cast
        ring
      have hX2 : (V1.game_move_piece g 0 1).2 = { g with current_piece := { g.current_piece with x := g.current_piece.x + 0, y := g.current_piece.y + 1 } } := by
        rw [heq]
      have hXp : ∀ m : ℕ, V1.pieceAt (V1.game_move_piece g 0 1).2 m = V1.pieceAt g (m + 1) := by
        intro m
        rw [hX2]
        exact hconv m
      have hXb : (V1.game_move_piece g 0 1).2.board = g.board := by rw [hX2]
      simp only [hXp, hXb] at ih
      constructor
      · intro k hk
        cases k with
        | zero =>
          rw [show (0 : ℕ) + 1 = 1 from rfl, ← V1.down_candidate g]
          exact hcoll
        | succ k2 =>
          exact ih.1 k2 (by omega)
      · exact ih.2
    · rw [heq] at hmv
      exact absurd hmv (by simp)
  | case2 g p hmv =>
    have hp : p = V1.game_move_piece g 0 1 := rfl
    rw [hp] at hmv
    have heq0 : V1.game_hard_drop_aux g = (0, g) := by
      rw [V1.game_hard_drop_aux_eq, if_neg hmv]
    rw [heq0]
    constructor
    · intro k hk
      simp at hk
    · rcases V1.game_move_piece_cases g 0 1 with ⟨hcoll, heq⟩ | ⟨hcoll, heq⟩
      · rw [heq] at hmv
        exact (hmv rfl).elim
      · have hcand := V1.down_candidate g
        show V1.tetromino_check_collision (V1.pieceAt g ((0 : ℕ) + 1)) g.board = true
        rw [show (0 : ℕ) + 1 = 1 from rfl, ← hcand]
        exact hcoll

theorem V1.game_hard_drop_spec (g : V1.Game) :
    (V1.game_hard_drop g).1 = (V1.game_hard_drop_aux g).1 ∧
    (V1.game_hard_drop g).2.score = g.score + (V1.game_hard_drop_aux g).1 * 2 ∧
    (V1.game_hard_drop g).2.board = g.board ∧
    (V1.game_hard_drop g).2.current_piece = V1.pieceAt g (V1.game_hard_drop_aux g).1 ∧
    (V1.game_hard_drop g).2.state = g.state := by
  have hs := V1.game_hard_drop_aux_state g
  refine ⟨rfl, ?_, ?_, ?_, ?_⟩
  · show (V1.game_hard_drop_aux g).2.score + (V1.game_hard_drop_aux g).1 * 2 = _
    rw [hs]
  · show (V1.game_hard_drop_aux g).2.board = _
    rw [hs]
  · show (V1.game_hard_drop_aux g).2.current_piece = _
    rw [hs]
  · show (V1.game_hard_drop_aux g).2.state = _
    rw [hs]

/-- The lock, clear, score, and respawn phase shared by the tick
(`game_update`) and the hard-drop input handler of src/input.c. -/
def V1.lockClearSpawnPhase (g : V1.Game) (r : ℕ) : V1.Game :=
  let g1 := V1.game_lock_piece g
  let cl := V1.game_clear_lines g1
  let g2 := if 0 < cl.1 then
      V1.game_update_level
        { cl.2 with score := cl.2.score + V1.game_calculate_score cl.1,
                    lines_cleared := cl.2.lines_cleared + cl.1 }
    else cl.2
  let sp := V1.game_spawn_piece g2 r
  if sp.1 then sp.2 else { sp.2 with state := V1.GState.game_over }

theorem V1.input_handle_hard_drop_stats (g : V1.Game) (r : ℕ)
    (hst : g.state = V1.GState.playing) :
    (V1.input_handle_hard_drop g r).score
      = (V1.game_hard_drop g).2.score
        + V1.game_calculate_score
            (V1.game_clear_lines (V1.game_lock_piece (V1.game_hard_drop g).2)).1 := by
  have hlock_score : ∀ gx : V1.Game, (V1.game_lock_piece gx).score = gx.score := by
    intro gx
    unfold V1.game_lock_piece
    cases V1.tetromino_get_shape gx.current_piece.type gx.current_piece.rotation <;> rfl
  have hspawn : ∀ (g2 : V1.Game) (r2 : ℕ),
      (V1.game_spawn_piece g2 r2).2.score = g2.score := by
    intro g2 r2
    simp only [V1.game_spawn_piece]
    split_ifs <;> rfl
  simp only [V1.input_handle_hard_drop]
  rw [hst]
  rw [if_pos rfl]
  set hd := V1.game_hard_drop g with hddef
  set cl := V1.game_clear_lines (V1.game_lock_piece hd.2) with hcldef
  set G2 := if 0 < cl.1 then
      V1.game_update_level
        { cl.2 with score := cl.2.score + V1.game_calculate_score cl.1,
                    lines_cleared := cl.2.lines_cleared + cl.1 }
    else cl.2 with hg2def
  have hfin : (if (V1.game_spawn_piece G2 r).1 = true then (V1.game_spawn_piece G2 r).2
      else { (V1.game_spawn_piece G2 r).2 with state := V1.GState.game_over }).score
        = G2.score := by
    split_ifs
    · exact hspawn G2 r
    · exact hspawn G2 r
  rw [hfin]
  have hclsc : cl.2.score = hd.2.score := by
    rw [show cl.2.score = (V1.game_lock_piece hd.2).score from rfl, hlock_score]
  by_cases hcl : 0 < cl.1
  · rw [hg2def, if_pos hcl]
    show cl.2.score + V1.game_calculate_score cl.1 = _
    rw [hclsc]
  · rw [hg2def, if_neg hcl]
    have h0 : cl.1 = 0 := by omega
    rw [hclsc, h0]
    simp [V1.game_calculate_score]

theorem V1.pieceAt_succ_candidate (g : V1.Game) (d : ℕ) :
    ({ V1.pieceAt g d with x := (V1.pieceAt g d).x + 0, y := (V1.pieceAt g d).y + 1 } : Tetromino)
      = V1.pieceAt g (d + 1) := by
  simp only [V1.pieceAt]
  rw [Tetromino.mk.injEq]
  exact ⟨rfl, rfl, by ring, by push_cast; ring⟩

/-- C3: in `Playing`, the hard drop of src/game.c descends while (and
only while) the downward placement is collision-free (the returned count
is the least failing step), adds exactly two points per dropped row, and
the input handler performs the drop and then the lock, clear, score, and
respawn phase within the one call, whose score adds the line-clear value
on top of the drop bonus. -/
theorem c3_hard_drop_behavior (g : V1.Game) (r : ℕ)
    (hst : g.state = V1.GState.playing) :
    (∀ k, k < (V1.game_hard_drop g).1 →
        V1.tetromino_check_collision (V1.pieceAt g (k + 1)) g.board = false) ∧
    V1.tetromino_check_collision
        (V1.pieceAt g ((V1.game_hard_drop g).1 + 1)) g.board = true ∧
    (V1.game_hard_drop g).2.score = g.score + (V1.game_hard_drop g).1 * 2 ∧
    V1.input_handle_hard_drop g r = V1.lockClearSpawnPhase (V1.game_hard_drop g).2 r ∧
    (V1.input_handle_hard_drop g r).score
      = (V1.game_hard_drop g).2.score
        + V1.game_calculate_score
            (V1.game_clear_lines (V1.game_lock_piece (V1.game_hard_drop g).2)).1 := by
  refine ⟨?_, ?_, ?_, ?_, ?_⟩
  · exact (V1.game_hard_drop_aux_least g).1
  · exact (V1.game_hard_drop_aux_least g).2
  · exact (V1.game_hard_drop_spec g).2.1
  · unfold V1.input_handle_hard_drop V1.lockClearSpawnPhase
    rw [hst]
    rw [if_pos rfl]
  · exact V1.input_handle_hard_drop_stats g r hst

/-- C3 witness: the hard-drop behavior applied at a freshly reset game. -/
theorem c3_hard_drop_behavior_witness :
    (V1.game_reset 0 0).state = V1.GState.playing ∧
    (V1.game_hard_drop (V1.game_reset 0 0)).2.score
      = (V1.game_reset 0 0).score + (V1.game_hard_drop (V1.game_reset 0 0)).1 * 2 :=
  ⟨rfl, (c3_hard_drop_behavior (V1.game_reset 0 0) 0 rfl).2.2.1⟩

/-- C10: for every V1 state the descent loop of `game_hard_drop` stops at
a blocked downward move (a further down-move from the final state fails);
the drop distance is at most 20 whenever the starting anchor row is at
least 0; and an invalid piece kind (failing shape lookup) gives distance
0 because the very first move collides. -/
theorem c10_hard_drop_termination :
    (∀ g : V1.Game, (V1.game_move_piece (V1.game_hard_drop g).2 0 1).1 = false) ∧
    (∀ g : V1.Game, 0 ≤ g.current_piece.y → ((V1.game_hard_drop g).1 : ℤ) ≤ 20) ∧
    (∀ g : V1.Game, (g.current_piece.type < 0 ∨ 7 ≤ g.current_piece.type) →
        (V1.game_hard_drop g).1 = 0) := by
  refine ⟨?_, ?_, ?_⟩
  · intro g
    have hcp := (V1.game_hard_drop_spec g).2.2.2.1
    have hb := (V1.game_hard_drop_spec g).2.2.1
    rcases V1.game_move_piece_cases (V1.game_hard_drop g).2 0 1 with ⟨hcoll, heq⟩ | ⟨hcoll, heq⟩
    · exfalso
      rw [hcp, hb] at hcoll
      rw [V1.pieceAt_succ_candidate] at hcoll
      have htrue := (V1.game_hard_drop_aux_least g).2
      rw [htrue] at hcoll
      exact absurd hcoll (by simp)
    · rw [heq]
  · intro g hy
    by_cases hd : (V1.game_hard_drop g).1 = 0
    · rw [hd]
      simp
    · have hdp : 0 < (V1.game_hard_drop_aux g).1 := Nat.pos_of_ne_zero hd
      have hlt : (V1.game_hard_drop_aux g).1 - 1 < (V1.game_hard_drop_aux g).1 := by omega
      have hfalse := (V1.game_hard_drop_aux_least g).1 _ hlt
      rw [show (V1.game_hard_drop_aux g).1 - 1 + 1 = (V1.game_hard_drop_aux g).1 from by
        omega] at hfalse
      have hyle := V1.collision_false_y_le _ _ hfalse
      simp only [V1.pieceAt] at hyle
      show ((V1.game_hard_drop_aux g).1 : ℤ) ≤ 20
      omega
  · intro g htype
    have hcoll : V1.tetromino_check_collision
        { g.current_piece with x := g.current_piece.x + 0, y := g.current_piece.y + 1 }
        g.board = true := by
      apply V1.tetromino_check_collision_none
      unfold V1.tetromino_get_shape
      rw [if_pos htype]
    have hmv : (V1.game_move_piece g 0 1).1 = false := by
      rcases V1.game_move_piece_cases g 0 1 with ⟨hc2, heq⟩ | ⟨hc2, heq⟩
      · exact absurd (hc2.symm.trans hcoll) (by simp)
      · rw [heq]
    show (V1.game_hard_drop_aux g).1 = 0
    rw [V1.game_hard_drop_aux_eq, if_neg (by rw [hmv]; simp)]

/-- C10 witness: the termination bound applied at a freshly reset game,
whose anchor row is 0. -/
theorem c10_hard_drop_termination_witness :
    0 ≤ (V1.game_reset 0 0).current_piece.y ∧
    ((V1.game_hard_drop (V1.game_reset 0 0)).1 : ℤ) ≤ 20 :=
  ⟨by decide, c10_hard_drop_termination.2.1 (V1.game_reset 0 0) (by decide)⟩

/-- C2 witness: the amended lock-scoring statement applied at the
concrete state `gC2`. -/
theorem c2_lock_scoring_witness :
    gC2.running = true ∧ gC2.state = V1.GState.playing ∧
    (V1.game_move_piece gC2 0 1).1 = false ∧
    ((V1.game_update gC2 0).2.score
        = gC2.score + V1.game_calculate_score (V1.game_clear_lines (V1.game_lock_piece gC2)).1 ∧
      (V1.game_update gC2 0).2.lines_cleared
        = gC2.lines_cleared + (V1.game_clear_lines (V1.game_lock_piece gC2)).1) :=
  ⟨rfl, rfl, by decide, c2_lock_scoring.1 gC2 0 rfl rfl (by decide)⟩

/-- A V1 state whose board has rows 0 and 1 entirely filled, so that no
piece can spawn. -/
def gC6 : V1.Game :=
  { V1.game_reset 0 0 with board := fullRow :: fullRow :: List.replicate 18 emptyRow }

/-- The V2 analog of `gC6`: rows 0 and 1 entirely filled. -/
def gC6b : V2.GameState :=
  { V2.game_init 0 0 with board := fullRow :: fullRow :: List.replicate 18 emptyRow }

/-- C6: whenever the spawn placement of the incoming piece is rejected by
the placement check, `game_spawn_piece` returns failure and transitions
to game over (`STATE_GAME_OVER` in V1, `is_running = 0` in V2) while
leaving every board cell unchanged; V2 also leaves the current piece
unchanged. -/
theorem c6_spawn_blocked :
    (∀ (g : V1.Game) (r : ℕ),
        V1.tetromino_check_collision
            { g.next_piece with x := (3 : ℤ), y := (0 : ℤ) } g.board = true →
        (V1.game_spawn_piece g r).1 = false ∧
        (V1.game_spawn_piece g r).2.state = V1.GState.game_over ∧
        (V1.game_spawn_piece g r).2.board = g.board) ∧
    (∀ (g : V2.GameState) (ty : ℤ),
        V2.game_is_valid_position g (V2.tetromino_create ty) = false →
        (V2.game_spawn_piece g ty).1 = false ∧
        (V2.game_spawn_piece g ty).2.is_running = false ∧
        (V2.game_spawn_piece g ty).2.board = g.board ∧
        (V2.game_spawn_piece g ty).2.current = g.current) := by
  constructor
  · intro g r h
    simp only [V1.game_spawn_piece]
    rw [if_pos h]
    exact ⟨rfl, rfl, rfl⟩
  · intro g ty h
    have h2 : (!V2.game_is_valid_position g (V2.tetromino_create ty)) = true := by
      rw [h]; rfl
    simp only [V2.game_spawn_piece]
    rw [if_pos h2]
    exact ⟨rfl, rfl, rfl, rfl⟩

/-- C6 witness: both spawn-failure statements applied at the concrete
blocked states `gC6` and `gC6b` (rows 0 and 1 full). -/
theorem c6_spawn_blocked_witness :
    (V1.tetromino_check_collision
        { gC6.next_piece with x := (3 : ℤ), y := (0 : ℤ) } gC6.board = true ∧
      (V1.game_spawn_piece gC6 0).1 = false ∧
      (V1.game_spawn_piece gC6 0).2.state = V1.GState.game_over ∧
      (V1.game_spawn_piece gC6 0).2.board = gC6.board) ∧
    (V2.game_is_valid_position gC6b (V2.tetromino_create 0) = false ∧
      (V2.game_spawn_piece gC6b 0).1 = false ∧
      (V2.game_spawn_piece gC6b 0).2.is_running = false ∧
      (V2.game_spawn_piece gC6b 0).2.board = gC6b.board ∧
      (V2.game_spawn_piece gC6b 0).2.current = gC6b.current) := by
  have h1 : V1.tetromino_check_collision
      { gC6.next_piece with x := (3 : ℤ), y := (0 : ℤ) } gC6.board = true := by decide
  have h2 : V2.game_is_valid_position gC6b (V2.tetromino_create 0) = false := by decide
  exact ⟨⟨h1, (c6_spawn_blocked.1 gC6 0 h1).1, (c6_spawn_blocked.1 gC6 0 h1).2.1,
      (c6_spawn_blocked.1 gC6 0 h1).2.2⟩,
    ⟨h2, (c6_spawn_blocked.2 gC6b 0 h2).1, (c6_spawn_blocked.2 gC6b 0 h2).2.1,
      (c6_spawn_blocked.2 gC6b 0 h2).2.2.1, (c6_spawn_blocked.2 gC6b 0 h2).2.2.2⟩⟩

/-- One V1 engine operation of src/game.c and src/input.c (`game_reset`
excluded: it begins a new run). -/
inductive V1.Step : V1.Game → V1.Game → Prop
  | update (g : V1.Game) (r : ℕ) : V1.Step g (V1.game_update g r).2
  | move (g : V1.Game) (dx dy : ℤ) : V1.Step g (V1.game_move_piece g dx dy).2
  | rotate (g : V1.Game) (cw : Bool) : V1.Step g (V1.game_rotate_piece g cw).2
  | hard_drop (g : V1.Game) : V1.Step g (V1.game_hard_drop g).2
  | lock (g : V1.Game) : V1.Step g (V1.game_lock_piece g)
  | clear (g : V1.Game) : V1.Step g (V1.game_clear_lines g).2
  | spawn (g : V1.Game) (r : ℕ) : V1.Step g (V1.game_spawn_piece g r).2
  | update_level (g : V1.Game) : V1.Step g (V1.game_update_level g)
  | toggle (g : V1.Game) : V1.Step g (V1.game_toggle_pause g)
  | set_cell (g : V1.Game) (x y v : ℤ) : V1.Step g (V1.game_set_board_cell g x y v)
  | h_left (g : V1.Game) : V1.Step g (V1.input_handle_left g)
  | h_right (g : V1.Game) : V1.Step g (V1.input_handle_right g)
  | h_down (g : V1.Game) : V1.Step g (V1.input_handle_down g)
  | h_rotate (g : V1.Game) (cw : Bool) : V1.Step g (V1.input_handle_rotate g cw)
  | h_hard_drop (g : V1.Game) (r : ℕ) : V1.Step g (V1.input_handle_hard_drop g r)

/-- V1 states reachable from a fresh `game_reset` by engine operations. -/
inductive V1.Reachable : V1.Game → Prop
  | reset (r1 r2 : ℕ) : V1.Reachable (V1.game_reset r1 r2)
  | step {g g2 : V1.Game} : V1.Reachable g → V1.Step g g2 → V1.Reachable g2

theorem V1.game_move_piece_levelStats (g : V1.Game) (dx dy : ℤ) :
    (V1.game_move_piece g dx dy).2.level = g.level ∧
    (V1.game_move_piece g dx dy).2.lines_cleared = g.lines_cleared := by
  rcases V1.game_move_piece_cases g dx dy with ⟨_, heq⟩ | ⟨_, heq⟩ <;> rw [heq] <;>
    exact ⟨rfl, rfl⟩

theorem V1.game_rotate_piece_levelStats (g : V1.Game) (cw : Bool) :
    (V1.game_rotate_piece g cw).2.level = g.level ∧
    (V1.game_rotate_piece g cw).2.lines_cleared = g.lines_cleared := by
  constructor
  · simp only [V1.game_rotate_piece]
    split <;> rfl
  · simp only [V1.game_rotate_piece]
    split <;> rfl

theorem V1.game_lock_piece_levelStats (g : V1.Game) :
    (V1.game_lock_piece g).level = g.level ∧
    (V1.game_lock_piece g).lines_cleared = g.lines_cleared := by
  unfold V1.game_lock_piece
  cases V1.tetromino_get_shape g.current_piece.type g.current_piece.rotation <;> exact ⟨rfl, rfl⟩

theorem V1.game_spawn_piece_levelStats (g : V1.Game) (r : ℕ) :
    (V1.game_spawn_piece g r).2.level = g.level ∧
    (V1.game_spawn_piece g r).2.lines_cleared = g.lines_cleared := by
  simp only [V1.game_spawn_piece]
  split_ifs <;> exact ⟨rfl, rfl⟩

theorem V1.game_hard_drop_levelStats (g : V1.Game) :
    (V1.game_hard_drop g).2.level = g.level ∧
    (V1.game_hard_drop g).2.lines_cleared = g.lines_cleared := by
  have hs := V1.game_hard_drop_aux_state g
  constructor
  · show (V1.game_hard_drop_aux g).2.level = g.level
    rw [hs]
  · show (V1.game_hard_drop_aux g).2.lines_cleared = g.lines_cleared
    rw [hs]

theorem V1.lockClearSpawnPhase_stats (g : V1.Game) (r : ℕ) :
    ((V1.lockClearSpawnPhase g r).level = g.level ∧
      (V1.lockClearSpawnPhase g r).lines_cleared = g.lines_cleared) ∨
    (∃ k, (V1.lockClearSpawnPhase g r).lines_cleared = g.lines_cleared + k ∧
      (V1.lockClearSpawnPhase g r).level = (g.lines_cleared + k) / 10 + 1) := by
  simp only [V1.lockClearSpawnPhase]
  set cl := V1.game_clear_lines (V1.game_lock_piece g) with hcldef
  set G2 := if 0 < cl.1 then
      V1.game_update_level
        { cl.2 with score := cl.2.score + V1.game_calculate_score cl.1,
                    lines_cleared := cl.2.lines_cleared + cl.1 }
    else cl.2 with hg2def
  have hfin : (if (V1.game_spawn_piece G2 r).1 = true then (V1.game_spawn_piece G2 r).2
      else { (V1.game_spawn_piece G2 r).2 with state := V1.GState.game_over }).level
        = G2.level ∧
      (if (V1.game_spawn_piece G2 r).1 = true then (V1.game_spawn_piece G2 r).2
      else { (V1.game_spawn_piece G2 r).2 with state := V1.GState.game_over }).lines_cleared
        = G2.lines_cleared := by
    split_ifs
    · exact V1.game_spawn_piece_levelStats G2 r
    · exact V1.game_spawn_piece_levelStats G2 r
  rw [hfin.1, hfin.2]
  have hcll : cl.2.level = g.level := by
    rw [show cl.2.level = (V1.game_lock_piece g).level from rfl,
      (V1.game_lock_piece_levelStats g).1]
  have hcln : cl.2.lines_cleared = g.lines_cleared := by
    rw [show cl.2.lines_cleared = (V1.game_lock_piece g).lines_cleared from rfl,
      (V1.game_lock_piece_levelStats g).2]
  by_cases hcl : 0 < cl.1
  · right
    refine ⟨cl.1, ?_, ?_⟩
    · rw [hg2def, if_pos hcl]
      show cl.2.lines_cleared + cl.1 = _
      rw [hcln]
    · rw [hg2def, if_pos hcl]
      show (cl.2.lines_cleared + cl.1) / 10 + 1 = _
      rw [hcln]
  · left
    rw [hg2def, if_neg hcl]
    exact ⟨hcll, hcln⟩

theorem V1.game_update_snd_eq (g : V1.Game) (r : ℕ) :
    (V1.game_update g r).2 = g ∨
    (V1.game_update g r).2 = (V1.game_move_piece g 0 1).2 ∨
    (V1.game_update g r).2 = V1.lockClearSpawnPhase g r := by
  by_cases hrun : g.running = true
  · by_cases hst : g.state = V1.GState.playing
    · rcases hmv : (V1.game_move_piece g 0 1).1 with _ | _
      · right; right
        simp only [V1.game_update, V1.lockClearSpawnPhase]
        rw [hrun, hst, hmv]
        rw [if_neg (by simp), if_neg (by simp), if_neg (by simp)]
        split_ifs <;> rfl
      · right; left
        simp only [V1.game_update]
        rw [hrun, hst, hmv]
        rw [if_neg (by simp), if_neg (by simp), if_pos rfl]
    · left
      simp only [V1.game_update]
      rw [hrun]
      rw [if_neg (by simp), if_pos hst]
  · left
    have hrun2 : g.running = false := by
      cases hb : g.running
      · rfl
      · exact absurd hb hrun
    simp only [V1.game_update]
    rw [hrun2]
    rw [if_pos (show (!false) = true from rfl)]

theorem V1.step_stats {g g2 : V1.Game} (hs : V1.Step g g2) :
    (g2.level = g.level ∧ g2.lines_cleared = g.lines_cleared) ∨
    (∃ k, g2.lines_cleared = g.lines_cleared + k ∧
      g2.level = (g.lines_cleared + k) / 10 + 1) := by
  cases hs with
  | update r =>
    rcases V1.game_update_snd_eq g r with h | h | h
    · left
      rw [h]
      exact ⟨rfl, rfl⟩
    · left
      rw [h]
      exact V1.game_move_piece_levelStats g 0 1
    · rw [h]
      exact V1.lockClearSpawnPhase_stats g r
  | move dx dy =>
    left
    exact V1.game_move_piece_levelStats g dx dy
  | rotate cw =>
    left
    exact V1.game_rotate_piece_levelStats g cw
  | hard_drop =>
    left
    exact V1.game_hard_drop_levelStats g
  | lock =>
    left
    exact V1.game_lock_piece_levelStats g
  | clear =>
    left
    exact ⟨rfl, rfl⟩
  | spawn r =>
    left
    exact V1.game_spawn_piece_levelStats g r
  | update_level =>
    right
    refine ⟨0, ?_, ?_⟩
    · show g.lines_cleared = g.lines_cleared + 0
      omega
    · show g.lines_cleared / 10 + 1 = (g.lines_cleared + 0) / 10 + 1
      omega
  | toggle =>
    left
    unfold V1.game_toggle_pause
    split_ifs <;> exact ⟨rfl, rfl⟩
  | set_cell x y v =>
    left
    unfold V1.game_set_board_cell
    split_ifs <;> exact ⟨rfl, rfl⟩
  | h_left =>
    left
    unfold V1.input_handle_left
    split_ifs
    · exact V1.game_move_piece_levelStats g (-1) 0
    · exact ⟨rfl, rfl⟩
  | h_right =>
    left
    unfold V1.input_handle_right
    split_ifs
    · exact V1.game_move_piece_levelStats g 1 0
    · exact ⟨rfl, rfl⟩
  | h_down =>
    left
    simp only [V1.input_handle_down]
    split_ifs
    · rcases V1.game_move_piece_cases g 0 1 with ⟨_, heq⟩ | ⟨_, heq⟩ <;> rw [heq] <;>
        exact ⟨rfl, rfl⟩
    · exact ⟨rfl, rfl⟩
  | h_rotate cw =>
    left
    unfold V1.input_handle_rotate
    split_ifs
    · exact V1.game_rotate_piece_levelStats g cw
    · exact ⟨rfl, rfl⟩
  | h_hard_drop r =>
    by_cases hst : g.state = V1.GState.playing
    · have heq2 : V1.input_handle_hard_drop g r
          = V1.lockClearSpawnPhase (V1.game_hard_drop g).2 r := by
        unfold V1.input_handle_hard_drop V1.lockClearSpawnPhase
        rw [hst]
        rw [if_pos rfl]
      rw [heq2]
      have hd := V1.game_hard_drop_levelStats g
      rcases V1.lockClearSpawnPhase_stats (V1.game_hard_drop g).2 r with ⟨h1, h2⟩ | ⟨k, h1, h2⟩
      · left
        exact ⟨h1.trans hd.1, h2.trans hd.2⟩
      · right
        refine ⟨k, ?_, ?_⟩
        · rw [h1, hd.2]
        · rw [h2, hd.2]
    · left
      unfold V1.input_handle_hard_drop
      rw [if_neg hst]
      exact ⟨rfl, rfl⟩

/-- One V2 engine operation of src/src/game.c. -/
inductive V2.Step : V2.GameState → V2.GameState → Prop
  | spawn (g : V2.GameState) (ty : ℤ) : V2.Step g (V2.game_spawn_piece g ty).2
  | move (g : V2.GameState) (dx dy : ℤ) : V2.Step g (V2.game_move_current g dx dy).2
  | rotate (g : V2.GameState) (cw : Bool) : V2.Step g (V2.game_rotate_current g cw).2
  | clear (g : V2.GameState) : V2.Step g (V2.game_clear_lines g).2
  | lock (g : V2.GameState) (r : ℕ) : V2.Step g (V2.game_lock_piece g r).2
  | hard_drop (g : V2.GameState) (r : ℕ) : V2.Step g (V2.game_hard_drop g r).2
  | set_next (g : V2.GameState) (ty : ℤ) : V2.Step g (V2.game_set_next_type g ty)

/-- V2 states reachable from a fresh `game_init` by engine operations. -/
inductive V2.Reachable : V2.GameState → Prop
  | init (r1 r2 : ℕ) : V2.Reachable (V2.game_init r1 r2)
  | step {g g2 : V2.GameState} : V2.Reachable g → V2.Step g g2 → V2.Reachable g2

theorem V2.spawn_piece_levelStats (g : V2.GameState) (ty : ℤ) :
    (V2.game_spawn_piece g ty).2.level = g.level ∧
    (V2.game_spawn_piece g ty).2.lines = g.lines := by
  simp only [V2.game_spawn_piece]
  split_ifs <;> exact ⟨rfl, rfl⟩

theorem V2.game_move_current_levelStats (g : V2.GameState) (dx dy : ℤ) :
    (V2.game_move_current g dx dy).2.level = g.level ∧
    (V2.game_move_current g dx dy).2.lines = g.lines := by
  rcases V2.game_move_current_cases g dx dy with ⟨_, heq⟩ | ⟨_, heq⟩ <;> rw [heq] <;>
    exact ⟨rfl, rfl⟩

theorem V2.game_rotate_current_levelStats (g : V2.GameState) (cw : Bool) :
    (V2.game_rotate_current g cw).2.level = g.level ∧
    (V2.game_rotate_current g cw).2.lines = g.lines := by
  simp only [V2.game_rotate_current]
  split_ifs <;> exact ⟨rfl, rfl⟩

theorem V2.game_init_levelStats (r1 r2 : ℕ) :
    (V2.game_init r1 r2).level = 1 ∧ (V2.game_init r1 r2).lines = 0 := by
  simp only [V2.game_init, V2.game_spawn_piece]
  split_ifs <;> exact ⟨rfl, rfl⟩

theorem V2.game_clear_lines_levelStats (g g0 : V2.GameState)
    (hl : g.level = g0.level) (hn : g.lines = g0.lines) :
    ((V2.game_clear_lines g).2.level = g0.level ∧
      (V2.game_clear_lines g).2.lines = g0.lines) ∨
    (∃ k, (V2.game_clear_lines g).2.lines = g0.lines + k ∧
      (V2.game_clear_lines g).2.level = (g0.lines + k) / 10 + 1) := by
  simp only [V2.game_clear_lines]
  split_ifs with h
  · right
    refine ⟨(V2.copyAux g.board 20 19 0).2.2, ?_, ?_⟩
    · show g.lines + (V2.copyAux g.board 20 19 0).2.2 = g0.lines + (V2.copyAux g.board 20 19 0).2.2
      rw [hn]
    · show (g.lines + (V2.copyAux g.board 20 19 0).2.2) / 10 + 1
        = (g0.lines + (V2.copyAux g.board 20 19 0).2.2) / 10 + 1
      rw [hn]
  · left
    exact ⟨hl, hn⟩

theorem V2.lock_piece_levelStats (g : V2.GameState) (r : ℕ) :
    ((V2.game_lock_piece g r).2.level = g.level ∧
      (V2.game_lock_piece g r).2.lines = g.lines) ∨
    (∃ k, (V2.game_lock_piece g r).2.lines = g.lines + k ∧
      (V2.game_lock_piece g r).2.level = (g.lines + k) / 10 + 1) := by
  simp only [V2.game_lock_piece]
  split
  · left
    exact ⟨rfl, rfl⟩
  · split_ifs with hv
    · left
      exact ⟨rfl, rfl⟩
    · exact V2.game_clear_lines_levelStats _ g rfl rfl

theorem V2.hard_drop_aux_unfold (g : V2.GameState) :
    V2.game_hard_drop_aux g =
      if (V2.game_move_current g 0 1).1 = true
      then ((V2.game_hard_drop_aux (V2.game_move_current g 0 1).2).1 + 1,
            (V2.game_hard_drop_aux (V2.game_move_current g 0 1).2).2)
      else (0, g) := by
  rw [V2.game_hard_drop_aux]
  show (if h : (V2.game_move_current g 0 1).1 = true
      then ((V2.game_hard_drop_aux (V2.game_move_current g 0 1).2).1 + 1,
            (V2.game_hard_drop_aux (V2.game_move_current g 0 1).2).2)
      else (0, g)) = _
  split_ifs with h
  · rfl
  · rfl

theorem V2.game_hard_drop_aux_levelStats (g : V2.GameState) :
    (V2.game_hard_drop_aux g).2.level = g.level ∧
    (V2.game_hard_drop_aux g).2.lines = g.lines ∧
    (V2.game_hard_drop_aux g).2.board = g.board := by
  induction g using V2.game_hard_drop_aux.induct with
  | case1 g p hmv ih =>
    have hp : p = V2.game_move_current g 0 1 := rfl
    rw [hp] at hmv ih
    rw [V2.hard_drop_aux_unfold, if_pos hmv]
    rcases V2.game_move_current_cases g 0 1 with ⟨hvalid, heq⟩ | ⟨hvalid, heq⟩
    · simp only [heq] at ih ⊢
      exact ⟨ih.1, ih.2.1, ih.2.2⟩
    · rw [heq] at hmv
      exact absurd hmv (by simp)
  | case2 g p hmv =>
    have hp : p = V2.game_move_current g 0 1 := rfl
    rw [hp] at hmv
    rw [V2.hard_drop_aux_unfold, if_neg hmv]
    exact ⟨rfl, rfl, rfl⟩

theorem V2.stepStats {g g2 : V2.GameState} (hs : V2.Step g g2) :
    (g2.level = g.level ∧ g2.lines = g.lines) ∨
    (∃ k, g2.lines = g.lines + k ∧ g2.level = (g.lines + k) / 10 + 1) := by
  cases hs with
  | spawn ty =>
    left
    exact V2.spawn_piece_levelStats g ty
  | move dx dy =>
    left
    exact V2.game_move_current_levelStats g dx dy
  | rotate cw =>
    left
    exact V2.game_rotate_current_levelStats g cw
  | clear =>
    exact V2.game_clear_lines_levelStats g g rfl rfl
  | lock r =>
    exact V2.lock_piece_levelStats g r
  | hard_drop r =>
    have haux := V2.game_hard_drop_aux_levelStats g
    rcases V2.lock_piece_levelStats (V2.game_hard_drop_aux g).2 r with ⟨h1, h2⟩ |
      ⟨k, h1, h2⟩
    · left
      constructor
      · show (V2.game_lock_piece (V2.game_hard_drop_aux g).2 r).2.level = g.level
        rw [h1, haux.1]
      · show (V2.game_lock_piece (V2.game_hard_drop_aux g).2 r).2.lines = g.lines
        rw [h2, haux.2.1]
    · right
      refine ⟨k, ?_, ?_⟩
      · show (V2.game_lock_piece (V2.game_hard_drop_aux g).2 r).2.lines = g.lines + k
        rw [h1, haux.2.1]
      · show (V2.game_lock_piece (V2.game_hard_drop_aux g).2 r).2.level
          = (g.lines + k) / 10 + 1
        rw [h2, haux.2.1]
  | set_next ty =>
    left
    exact ⟨rfl, rfl⟩

/-- C8: in every state reachable from a fresh game by engine operations,
the level equals `lines / 10 + 1` (integer division; so level 1 at 9
lines, 2 at 10, 3 at 29), and no engine operation ever decreases the
level.  This holds for both the V1 API (src/game.c with the src/input.c
handlers, reset excluded as it begins a new run) and the V2 API
(src/src/game.c). -/
theorem c8_level_invariant :
    (∀ g : V1.Game, V1.Reachable g →
      g.level = g.lines_cleared / 10 + 1 ∧
      ∀ g2 : V1.Game, V1.Step g g2 → g.level ≤ g2.level) ∧
    (∀ g : V2.GameState, V2.Reachable g →
      g.level = g.lines / 10 + 1 ∧
      ∀ g2 : V2.GameState, V2.Step g g2 → g.level ≤ g2.level) := by
  have hinv1 : ∀ g : V1.Game, V1.Reachable g → g.level = g.lines_cleared / 10 + 1 := by
    intro g hg
    induction hg with
    | reset r1 r2 =>
      show (1 : ℕ) = 0 / 10 + 1
      decide
    | step hR hS ih =>
      rcases V1.step_stats hS with ⟨h1, h2⟩ | ⟨k, h1, h2⟩
      · rw [h1, h2, ih]
      · rw [h2, h1]
  have hinv2 : ∀ g : V2.GameState, V2.Reachable g → g.level = g.lines / 10 + 1 := by
    intro g hg
    induction hg with
    | init r1 r2 =>
      rcases V2.game_init_levelStats r1 r2 with ⟨h1, h2⟩
      rw [h1, h2]
    | step hR hS ih =>
      rcases V2.stepStats hS with ⟨h1, h2⟩ | ⟨k, h1, h2⟩
      · rw [h1, h2, ih]
      · rw [h2, h1]
  constructor
  · intro g hg
    refine ⟨hinv1 g hg, ?_⟩
    intro g2 hS
    have hI := hinv1 g hg
    rcases V1.step_stats hS with ⟨h1, h2⟩ | ⟨k, h1, h2⟩
    · omega
    · omega
  · intro g hg
    refine ⟨hinv2 g hg, ?_⟩
    intro g2 hS
    have hI := hinv2 g hg
    rcases V2.stepStats hS with ⟨h1, h2⟩ | ⟨k, h1, h2⟩
    · omega
    · omega

/-- C8 witness: the invariant applied at the freshly reset V1 game and
the freshly initialized V2 game. -/
theorem c8_level_invariant_witness :
    V1.Reachable (V1.game_reset 0 0) ∧
    (V1.game_reset 0 0).level = (V1.game_reset 0 0).lines_cleared / 10 + 1 ∧
    V2.Reachable (V2.game_init 0 0) ∧
    (V2.game_init 0 0).level = (V2.game_init 0 0).lines / 10 + 1 :=
  ⟨V1.Reachable.reset 0 0,
    (c8_level_invariant.1 (V1.game_reset 0 0) (V1.Reachable.reset 0 0)).1,
    V2.Reachable.init 0 0,
    (c8_level_invariant.2 (V2.game_init 0 0) (V2.Reachable.init 0 0)).1⟩

end Tetris
